import Mathlib

/-!
Verification of the mcp-xlsm-server core against its natural-language
specification.  The Go sources are shallowly embedded: pure functions become
Lean functions, stateful components (the smart cache) become explicit state
passing, Go `int`/`int64` become `Int` (no overflow is reachable in any claim),
Go `float64` arithmetic on the small dyadic values that appear here is exact
and is modelled with `Rat`.  External libraries (tiktoken, gzip/brotli,
base64/json, excelize file IO) are outside the repository; where a claim needs
them they are modelled by parameters or by their documented lossless/contract
behaviour, noted at each definition.
-/

namespace CursorCodec

/-- Source: internal/models/types.go, `Window`. -/
structure Window where
  startRow : Int
  endRow : Int
  startCol : Int
  endCol : Int
  deriving Repr, DecidableEq

/-- Source: internal/models/types.go, `CursorData`. -/
structure CursorData where
  chunkId : String
  offset : Int
  version : Int
  checksum : String
  timestamp : Int
  windowInfo : Option Window
  deriving Repr, DecidableEq

/-- Source: internal/models/types.go, `CURSOR_VERSION = 1`. -/
def CURSOR_VERSION : Int := 1

/-- Source: cursor manager, `GenerateCursor`.  The Go code sets `Version` and
`Timestamp` on the payload, marshals it to JSON and base64url-encodes it.
JSON marshalling and base64url encoding are external lossless codecs
(`encoding/json`, `encoding/base64`); the wire string is modelled by the
structured payload itself, so encode/decode of the byte level is the
identity and only the repository's own logic (field stamping, validation)
is embedded. -/
def generateCursor (now : Int) (d : CursorData) : CursorData :=
  { d with version := CURSOR_VERSION, timestamp := now }

/-- Source: cursor manager, `ParseCursor`.  Decodes the wire payload (modelled
as the payload itself, see `generateCursor`), then validates the version and
the 24-hour age bound (`maxAge = 24*60*60` seconds). -/
def parseCursor (now : Int) (w : CursorData) : Except String CursorData :=
  if w.version ≠ CURSOR_VERSION then
    .error "cursor version mismatch"
  else if 24 * 60 * 60 < now - w.timestamp then
    .error "cursor expired"
  else
    .ok w

/-- Source: cursor manager, `CreateChunkCursor`. -/
def createChunkCursor (now : Int) (chunkId : String) (offset : Int)
    (checksum : String) (window : Option Window) : CursorData :=
  generateCursor now
    { chunkId := chunkId, offset := offset, version := 0, checksum := checksum,
      timestamp := 0, windowInfo := window }

end CursorCodec

namespace Dispatch

/-- Source: internal/server/server.go, `routeRequest`: the switch over the
method name.  Known methods dispatch to a handler; the default branch
returns the error `unknown method: <m>`.  Only the error path matters for
routing claims, so the handler results are collapsed to `Unit`. -/
def routeRequest (m : String) : Except String Unit :=
  if m = "analyze_file" ∨ m = "build_navigation_map" ∨ m = "query_data" ∨
     m = "list_tools" ∨ m = "get_server_info" ∨ m = "initialize" then
    .ok ()
  else
    .error ("unknown method: " ++ m)

/-- The method table of `routeRequest`, for stating claims. -/
def knownMethods : List String :=
  ["analyze_file", "build_navigation_map", "query_data",
   "list_tools", "get_server_info", "initialize"]

/-- Source: internal/server/server.go, `handleMCPRequest`: any error from
`routeRequest` is sent with `s.sendError(w, id, -32603, err.Error())`.
Returns `none` on success, `some (code, message)` on error. -/
def httpErrorOf (m : String) : Option (Int × String) :=
  match routeRequest m with
  | .ok _ => none
  | .error e => some (-32603, e)

/-- Source: internal/server/server.go, `StartStdio`: any error from
`routeRequest` is sent with `Code: -32000, Message: err.Error()`. -/
def stdioErrorOf (m : String) : Option (Int × String) :=
  match routeRequest m with
  | .ok _ => none
  | .error e => some (-32000, e)

end Dispatch

namespace NavTool

/-- Source: internal/models/types.go, `CacheControl`. -/
structure CacheControl where
  ttlSeconds : Int
  invalidateOnChecksum : Bool
  hotDataExtension : Bool
  cacheKey : String
  deriving Repr, DecidableEq

/-- Source: internal/server/tools.go, `calculateFileChecksum`: the body is a
stub that ignores the path and returns the constant `"dummy_checksum"`
(its comment claims it reuses the analyze_file checksum computation). -/
def calculateFileChecksum (_fp : String) : String :=
  "dummy_checksum"

/-- Source: internal/server/tools.go, `BuildNavigationMap` lines 489-497:
`checksumMatch := currentChecksum == checksum` where `currentChecksum`
comes from `calculateFileChecksum`. -/
def checksumMatchOf (fp supplied : String) : Bool :=
  calculateFileChecksum fp = supplied

/-- Source: same place: `invalidationRequired := !checksumMatch`. -/
def invalidationRequiredOf (fp supplied : String) : Bool :=
  ! checksumMatchOf fp supplied

/-- Source: internal/server/tools.go, `createCacheControl`. -/
def createCacheControl (checksum : String) (checksumMatch : Bool) : CacheControl :=
  { ttlSeconds := if checksumMatch then 600 else 300,
    invalidateOnChecksum := true,
    hotDataExtension := checksumMatch,
    cacheKey := "nav_" ++ checksum }

/-- The checksum-related portion of the `build_navigation_map` response:
`(checksum_match, invalidation_required, cache_control)` as assembled by
`BuildNavigationMap`. -/
def navChecksumFields (fp supplied : String) : Bool × Bool × CacheControl :=
  (checksumMatchOf fp supplied, invalidationRequiredOf fp supplied,
   createCacheControl supplied (checksumMatchOf fp supplied))

end NavTool

namespace Cache

/-- Association-list lookup (Go map read). -/
def lookupA {β : Type} (l : List (String × β)) (k : String) : Option β :=
  match l.find? (fun p => p.1 = k) with
  | some p => some p.2
  | none => none

/-- Association-list write (Go map write): replace in place when present,
otherwise add. -/
def upsertA {β : Type} (l : List (String × β)) (k : String) (v : β) :
    List (String × β) :=
  if (lookupA l k).isSome then
    l.map (fun p => if p.1 = k then (k, v) else p)
  else
    (k, v) :: l

/-- Association-list delete (Go `delete`). -/
def eraseA {β : Type} (l : List (String × β)) (k : String) : List (String × β) :=
  l.filter (fun p => p.1 ≠ k)

/-- Source: internal/cache/smart_cache.go, `CacheEntry` (value with metadata).
The stored payload (`interface{}`) is opaque to the cache; it is modelled
by an integer handle. -/
structure CacheEntry where
  value : Int
  size : Int
  createdAt : Int
  expiresAt : Int
  checksum : String
  deriving Repr, DecidableEq

/-- A value stored in the cache: either an arbitrary payload (anything that is
not a `*CacheEntry`) or a metadata-bearing `*CacheEntry`. -/
inductive CVal where
  | raw (p : Int)
  | entry (e : CacheEntry)
  deriving Repr, DecidableEq

/-- Source: internal/models/types.go, `HotEntry`.  Durations and instants are
in seconds. -/
structure HotEntry where
  accessCount : Int
  lastAccess : Int
  ttl : Int
  size : Int
  deriving Repr, DecidableEq

/-- Source: internal/cache/smart_cache.go, `CacheStats`. -/
structure CacheStats where
  hits : Int
  misses : Int
  evictions : Int
  hotPromotions : Int
  deriving Repr, DecidableEq

/-- Source: internal/cache/smart_cache.go, `SmartCache`.  The embedded
`hashicorp/golang-lru` cache of size 1000 is modelled by `lru`, a list of
(key, value) pairs in recency order (front = most recently used); its
eviction callback in `NewSmartCache` is empty.  `hotData` is the Go map;
the mutex disappears because state passing is explicit. -/
structure SmartCache where
  lru : List (String × CVal)
  hotData : List (String × HotEntry)
  maxMemory : Int
  currentMem : Int
  stats : CacheStats
  deriving Repr, DecidableEq

/-- Source: `NewSmartCache(maxMemoryMB)`; `lru.NewWithEvict(1000, noop)`. -/
def newSmartCache (maxMemoryMB : Int) : SmartCache :=
  { lru := [], hotData := [], maxMemory := maxMemoryMB * 1024 * 1024,
    currentMem := 0,
    stats := { hits := 0, misses := 0, evictions := 0, hotPromotions := 0 } }

/-- golang-lru `Get`: on a hit the entry moves to the front of the recency
order and the value is returned. -/
def lruGetMove (l : List (String × CVal)) (k : String) :
    List (String × CVal) × Option CVal :=
  match lookupA l k with
  | none => (l, none)
  | some v => ((k, v) :: l.eraseP (fun p => p.1 = k), some v)

/-- golang-lru `Add` with capacity 1000: move/insert at the front, then drop
the oldest entry when over capacity.  The eviction callback registered in
`NewSmartCache` does nothing, so dropping adjusts no accounting. -/
def lruAdd (l : List (String × CVal)) (k : String) (v : CVal) :
    List (String × CVal) :=
  let l' := (k, v) :: l.eraseP (fun p => p.1 = k)
  if 1000 < l'.length then l'.dropLast else l'

/-- golang-lru `Remove`. -/
def lruRemove (l : List (String × CVal)) (k : String) : List (String × CVal) :=
  l.eraseP (fun p => p.1 = k)

def recordHit (s : CacheStats) : CacheStats := { s with hits := s.hits + 1 }

def recordMiss (s : CacheStats) : CacheStats := { s with misses := s.misses + 1 }

def recordEviction (s : CacheStats) : CacheStats :=
  { s with evictions := s.evictions + 1 }

def recordHotPromotion (s : CacheStats) : CacheStats :=
  { s with hotPromotions := s.hotPromotions + 1 }

/-- Source: `updateHotData` (called with `isHit = true`).  5 and 10 minutes
are 300 and 600 seconds. -/
def updateHotData (st : SmartCache) (k : String) (now : Int) : SmartCache :=
  match lookupA st.hotData k with
  | some e =>
    let e1 : HotEntry :=
      { e with accessCount := e.accessCount + 1, lastAccess := now }
    if 3 < e1.accessCount ∧ e1.ttl < 600 then
      { st with hotData := upsertA st.hotData k { e1 with ttl := 600 },
                stats := recordHotPromotion st.stats }
    else
      { st with hotData := upsertA st.hotData k e1 }
  | none =>
    let e0 : HotEntry :=
      { accessCount := 1, lastAccess := now, ttl := 300, size := 0 }
    { st with hotData := upsertA st.hotData k e0 }

/-- Source: `SmartCache.Get`. -/
def getOp (st : SmartCache) (k : String) (now : Int) :
    SmartCache × Option CVal :=
  let r := lruGetMove st.lru k
  match r.2 with
  | some v =>
    (updateHotData { st with lru := r.1, stats := recordHit st.stats } k now,
     some v)
  | none => ({ st with lru := r.1, stats := recordMiss st.stats }, none)

/-- One eviction pass of `evictColdData`: scan a snapshot of the hot-data
table, evicting entries matching `cond` until the freed space reaches
`needed`.  Go iterates the map in unspecified order; the model iterates in
list order (every claim here is insensitive to the order). -/
def evictPass (cond : HotEntry → Bool) (needed : Int) :
    List (String × HotEntry) → SmartCache → Int → SmartCache × Int
  | [], st, freed => (st, freed)
  | (k, e) :: rest, st, freed =>
    if needed ≤ freed then (st, freed)
    else if cond e then
      evictPass cond needed rest
        { st with lru := lruRemove st.lru k,
                  hotData := eraseA st.hotData k,
                  currentMem := st.currentMem - e.size,
                  stats := recordEviction st.stats }
        (freed + e.size)
    else evictPass cond needed rest st freed

/-- Source: `evictColdData`: cold pass (accessCount < 2 and idle > 5 min),
then aged pass (idle > 15 min); returns whether enough was freed. -/
def evictColdData (st : SmartCache) (needed : Int) (now : Int) :
    SmartCache × Bool :=
  let r1 := evictPass
    (fun e => e.accessCount < 2 ∧ e.lastAccess < now - 300) needed
    st.hotData st 0
  let r2 :=
    if r1.2 < needed then
      evictPass (fun e => e.lastAccess < now - 900) needed r1.1.hotData r1.1 r1.2
    else r1
  (r2.1, needed ≤ r2.2)

/-- Source: `SmartCache.Set`.  Returns the new state and whether the set was
accepted. -/
def setOp (st : SmartCache) (k : String) (v : CVal) (size : Int) (now : Int) :
    SmartCache × Bool :=
  let pre :=
    if st.maxMemory < st.currentMem + size then evictColdData st size now
    else (st, true)
  if pre.2 = false then (pre.1, false)
  else
    let st1 := pre.1
    -- `if _, exists := c.lru.Get(key); exists` (the Get also bumps recency),
    -- then subtract the old hot entry's size when one is tracked.
    let st2 :=
      match lookupA st1.lru k with
      | some v0 =>
        let stM := { st1 with lru := ((k, v0) :: st1.lru.eraseP (fun p => p.1 = k)) }
        match lookupA stM.hotData k with
        | some oldE => { stM with currentMem := stM.currentMem - oldE.size }
        | none => stM
      | none => st1
    let e0 : HotEntry :=
      { accessCount := 1, lastAccess := now, ttl := 300, size := size }
    ({ st2 with
        lru := lruAdd st2.lru k v,
        currentMem := st2.currentMem + size,
        hotData := upsertA st2.hotData k e0 },
     true)

/-- Source: `SmartCache.Delete`. -/
def deleteOp (st : SmartCache) (k : String) : SmartCache :=
  let st1 :=
    match lookupA st.hotData k with
    | some e =>
      { st with hotData := eraseA st.hotData k,
                currentMem := st.currentMem - e.size }
    | none => st
  { st1 with lru := lruRemove st1.lru k }

/-- Source: `SmartCache.cleanup` (the body of the 1-minute sweeper): remove
entries idle longer than their TTL.  Iterates a snapshot of the hot-data
table (order-insensitive here, as in `evictPass`). -/
def cleanupOp (st : SmartCache) (now : Int) : SmartCache :=
  st.hotData.foldl
    (fun acc p =>
      if p.2.ttl < now - p.2.lastAccess then
        { acc with lru := lruRemove acc.lru p.1,
                   hotData := eraseA acc.hotData p.1,
                   currentMem := acc.currentMem - p.2.size }
      else acc)
    st

/-- Source: `SmartCache.GetMemoryUsage`. -/
def getMemoryUsage (st : SmartCache) : Int × Int :=
  (st.currentMem, st.maxMemory)

/-- Source: `SmartCache.SetWithMetadata`. -/
def setWithMetadata (st : SmartCache) (k : String) (e : CacheEntry) (now : Int) :
    SmartCache × Bool :=
  setOp st k (.entry e) e.size now

/-- Source: `SmartCache.GetWithValidation`.  For a `*CacheEntry` value the
expiry and checksum are validated (deleting on failure); for any other
stored value the type assertion fails and the raw value is returned as a
hit. -/
def getWithValidation (st : SmartCache) (k : String) (expectedChecksum : String)
    (now : Int) : SmartCache × Option Int :=
  let r := getOp st k now
  match r.2 with
  | none => (r.1, none)
  | some (.entry e) =>
    if e.expiresAt < now then (deleteOp r.1 k, none)
    else if expectedChecksum ≠ "" ∧ e.checksum ≠ expectedChecksum then
      (deleteOp r.1 k, none)
    else (r.1, some e.value)
  | some (.raw p) => (r.1, some p)

/-- The size accounted to a key by the hot-data table (0 when untracked). -/
def hotSizeOf (st : SmartCache) (k : String) : Int :=
  match lookupA st.hotData k with
  | some e => e.size
  | none => 0

/-- The sum of `size_bytes` over the entries currently live in the cache,
i.e. the keys actually held by the LRU store (the only ones `Get` can
return). -/
def liveSizeSum (st : SmartCache) : Int :=
  st.lru.foldl (fun a p => a + hotSizeOf st p.1) 0

/-- Key generator for the C1 failing input: 1001 pairwise distinct keys. -/
def keyN (i : Nat) : String := String.mk (List.replicate (i + 1) 'a')

/-- The C1 failing input: `n` fresh `Set` calls of distinct keys, each of
size 1 byte, at time 0, in a 100 MB cache (the size the server constructs
in `server.New`). -/
def setRun (n : Nat) : SmartCache :=
  (List.range n).foldl (fun st i => (setOp st (keyN i) (.raw 0) 1 0).1)
    (newSmartCache 100)

end Cache

namespace Strutil

/-!
Go string primitives (`strings.Contains`, `strings.Fields`,
`strings.ToUpper`, `strings.ToLower`) modelled over the character list of a
`String`, which the kernel can evaluate.  The repository's data is ASCII, so
byte-level Go semantics and character-level semantics coincide.
-/

/-- `strings.Contains(s, c)` for a single-character pattern. -/
def containsChar (s : String) (c : Char) : Bool := s.data.contains c

/-- Whether `pat` is a prefix of `s`. -/
def prefixEq : List Char → List Char → Bool
  | [], _ => true
  | _ :: _, [] => false
  | a :: as, b :: bs => a = b && prefixEq as bs

/-- Whether `pat` occurs in `s` at some position. -/
def occursIn (pat : List Char) : List Char → Bool
  | [] => prefixEq pat []
  | c :: rest => prefixEq pat (c :: rest) || occursIn pat rest

/-- `strings.Contains`. -/
def containsSubstr (s pat : String) : Bool := occursIn pat.data s.data

/-- `strings.ToUpper` (ASCII). -/
def toUpperStr (s : String) : String := String.mk (s.data.map Char.toUpper)

/-- `strings.ToLower` (ASCII). -/
def toLowerStr (s : String) : String := String.mk (s.data.map Char.toLower)

/-- The accumulator pass of `strings.Fields`: split on whitespace runs,
dropping empty words. -/
def fieldsAux : List Char → List Char → List String
  | acc, [] => if acc.isEmpty then [] else [String.mk acc.reverse]
  | acc, ch :: rest =>
    if ch.isWhitespace then
      if acc.isEmpty then fieldsAux [] rest
      else String.mk acc.reverse :: fieldsAux [] rest
    else fieldsAux (ch :: acc) rest

/-- `strings.Fields`. -/
def fieldsStr (s : String) : List String := fieldsAux [] s.data

end Strutil

namespace Comp

/-- A JSON-style value as handled by the compression pipeline's `interface{}`
arguments: Go `map[string]interface{}` is `obj` (fields in insertion order,
which is also the iteration order the model uses where Go map order is
unspecified), `[]interface{}` is `arr`, `string` is `str`, and every other
dynamic type falls into the `default` branch of `truncateData` (modelled by
`null` / `bool` / `num`). -/
inductive Value where
  | null
  | bool (b : Bool)
  | num (n : Int)
  | str (s : String)
  | arr (elems : List Value)
  | obj (fields : List (String × Value))

/-- Source: internal/compression/manager.go, `priorityFields` in
`truncateMap`. -/
def priorityFields : List String := ["metadata", "summary", "index", "pagination"]

/-- The external token counter (tiktoken `cl100k_base` behind
`token.Counter.Count`) is outside the repository; it is a parameter `c` of
the embedding.  `Count`'s error branch (a failing `json.Marshal`) is
unreachable for these value shapes, so `c` is total. -/
def prioGo (c : Value → Nat) (data : List (String × Value)) (target : Int) :
    List String → (List (String × Value) × Int) → List (String × Value) × Int
  | [], acc => acc
  | f :: pf, acc =>
    match Cache.lookupA data f with
    | some v =>
      if acc.2 + (c v : Int) ≤ target then
        prioGo c data target pf (acc.1 ++ [(f, v)], acc.2 + (c v : Int))
      else prioGo c data target pf acc
    | none => prioGo c data target pf acc

def prioPassOn (c : Value → Nat) (data : List (String × Value)) (target : Int)
    (pf : List String) : List (String × Value) × Int :=
  prioGo c data target pf ([], 0)

/-- Source: the first loop of `truncateMap`: add the priority fields that fit
the running budget. -/
def prioPass (c : Value → Nat) (data : List (String × Value)) (target : Int) :
    List (String × Value) × Int :=
  prioPassOn c data target priorityFields

/-- Source: the tail of `truncateMap`: `result["_truncated"] = true`,
`result["_original_size"] = len(data)`, `result["_included_fields"] =
len(result) - 2` (evaluated after the first two markers are present). -/
def addMarkers (res : List (String × Value)) (origLen : Nat) :
    List (String × Value) :=
  let r1 := Cache.upsertA res "_truncated" (.bool true)
  let r2 := Cache.upsertA r1 "_original_size" (.num origLen)
  Cache.upsertA r2 "_included_fields" (.num ((r2.length : Int) - 2))

/-- Index of the last space byte of a character list (`bytes.LastIndexByte`,
-1 when absent; ASCII is assumed so bytes and characters coincide). -/
def lastSpaceIdx (l : List Char) : Int :=
  match l.reverse.findIdx? (fun ch => ch = ' ') with
  | some j => ((l.length - 1 - j : Nat) : Int)
  | none => -1

/-- Source: `truncateString`.  `cs` is the external `CountString`.  String
slicing is by characters (the repo's data is ASCII, where Go's byte slicing
agrees). -/
def truncateStringGo (cs : String → Nat) (s : String) (target : Int) : String :=
  if (cs s : Int) ≤ target then s
  else
    let targetLength : Int := target * 4
    if (s.length : Int) ≤ targetLength then s
    else
      let truncated := s.toList.take targetLength.toNat
      let ls := lastSpaceIdx truncated
      let kept := if targetLength / 2 < ls then truncated.take ls.toNat else truncated
      String.mk kept ++ "... [truncated]"

mutual

/-- Source: `truncateData`: type-switch dispatch to the map / slice / string
truncators; any other value is returned unchanged. -/
def truncateData (c : Value → Nat) (cs : String → Nat) :
    Value → Int → Value
  | .obj fields, target =>
    let pr := prioPass c fields target
    let r := truncMapRest c cs fields pr.1 pr.2 target
    .obj (addMarkers r.1 fields.length)
  | .arr elems, target => .arr (truncSliceRest c cs elems elems.length [] 0 target)
  | .str s, target => .str (truncateStringGo cs s target)
  | v, _ => v

/-- Source: the second loop of `truncateMap`: walk the remaining fields in
order, skip keys already present, add fields that fit, and at the first
field that does not fit recursively truncate it, keep it when its new count
is positive, and stop.  Besides the result fields and the running
`currentTokens`, the model returns the count charged for the recursively
truncated boundary field (0 when the loop never reached that branch) — pure
instrumentation used by theorems, not extra behaviour. -/
def truncMapRest (c : Value → Nat) (cs : String → Nat) :
    List (String × Value) → List (String × Value) → Int → Int →
    (List (String × Value) × Int × Int)
  | [], res, cur, _ => (res, cur, 0)
  | (k, v) :: rest, res, cur, target =>
    if (Cache.lookupA res k).isSome then truncMapRest c cs rest res cur target
    else if cur + (c v : Int) ≤ target then
      truncMapRest c cs rest (res ++ [(k, v)]) (cur + (c v : Int)) target
    else
      let tv := truncateData c cs v (target - cur)
      if 0 < (c tv : Int) then (res ++ [(k, tv)], cur + (c tv : Int), (c tv : Int))
      else (res, cur, 0)

/-- Source: `truncateSlice`: add items that fit; at the first item that does
not fit, recursively truncate it, keep it when its count is positive,
append the `_truncated_items`/`_total_items` summary unless the boundary
was the final item, and stop. -/
def truncSliceRest (c : Value → Nat) (cs : String → Nat) :
    List Value → Nat → List Value → Int → Int → List Value
  | [], _, res, _, _ => res
  | item :: rest, total, res, cur, target =>
    if cur + (c item : Int) ≤ target then
      truncSliceRest c cs rest total (res ++ [item]) (cur + (c item : Int)) target
    else
      let ti := truncateData c cs item (target - cur)
      let res1 := if 0 < (c ti : Int) then res ++ [ti] else res
      if rest.length ≠ 0 then
        res1 ++ [.obj [("_truncated_items", .num rest.length),
                       ("_total_items", .num total)]]
      else res1

end

/-- Source: `Manager.truncateMap` as a whole (priority pass, remaining-fields
pass, markers), on a map given as its insertion-ordered field list. -/
def truncateMap (c : Value → Nat) (cs : String → Nat)
    (data : List (String × Value)) (target : Int) : List (String × Value) :=
  let pr := prioPass c data target
  let r := truncMapRest c cs data pr.1 pr.2 target
  addMarkers r.1 data.length

/-- The final `currentTokens` accumulator of `truncateMap` (the tokens the
code accounted for the included fields; markers are never counted). -/
def truncateMapAcc (c : Value → Nat) (cs : String → Nat)
    (data : List (String × Value)) (target : Int) : Int :=
  let pr := prioPass c data target
  (truncMapRest c cs data pr.1 pr.2 target).2.1

/-- The tokens charged for the recursively truncated boundary field of
`truncateMap` (0 when no boundary truncation happened). -/
def truncateMapBoundary (c : Value → Nat) (cs : String → Nat)
    (data : List (String × Value)) (target : Int) : Int :=
  let pr := prioPass c data target
  (truncMapRest c cs data pr.1 pr.2 target).2.2

/-- Source: internal/token/counter.go, `GetCompressionStrategy`: ratio
thresholds 0.5 / 0.7 / 0.9 against the model's safe buffer (these are the
spec's §4.A thresholds).  Ratios are exact rationals (see the header note
on float64). -/
def getCompressionStrategy (tokenCount safeBuffer : Int) : String :=
  let r : ℚ := (tokenCount : ℚ) / (safeBuffer : ℚ)
  if r < 1/2 then "none"
  else if r < 7/10 then "gzip"
  else if r < 9/10 then "brotli"
  else "brotli-aggressive"

/-- The value of the Go literal `0.7` as a float64: the numerator of the
nearest double, `3152519739159347 / 2^52`, which is slightly below 7/10. -/
def float07Num : Nat := 3152519739159347

/-- The halvings needed to fit `n` into the 53 significand bits of a
float64: the first `s` with `n / 2^s < 2^53`.  The fuel bounds the
recursion; 128 covers every numerator arising from a 64-bit `limit`
(below `2^63 · 2^52`). -/
def sigShift : Nat → Nat → Nat
  | 0, _ => 0
  | fuel + 1, n => if n < 2 ^ 53 then 0 else sigShift fuel (n / 2) + 1

/-- Round the value `n / 2^52` to the nearest float64 — round half to even
on a 53-bit significand — returning the numerator of the result over
`2^52`.  A numerator of at most 53 bits is exactly representable. -/
def fl64round (n : Nat) : Nat :=
  let s := sigShift 128 n
  if s = 0 then n
  else
    let d := 2 ^ s
    let q := n / d
    let r := n % d
    let m :=
      if 2 * r < d then q
      else if d < 2 * r then q + 1
      else if q % 2 = 0 then q else q + 1
    m * d

/-- Source: internal/compression/manager.go, `truncateData` call site in
`OptimizeResponse`: `int(float64(limit) * 0.7)`.  The int-to-float64
conversion is exact for every limit below `2^53`; the multiplication
returns the correctly rounded (nearest, ties to even) float64 of the exact
product `limit · float07Num / 2^52`; and `int` truncates toward zero.
Because float64 `0.7` lies below 7/10, this can fall one short of
`⌊7·limit/10⌋`: at the standard 180000-token safe buffer Go computes
125999, not 126000. -/
def truncTarget (limit : Int) : Int :=
  limit.sign * ((fl64round (limit.natAbs * float07Num)) / 2 ^ 52 : Nat)

/-- Source: `Manager.OptimizeResponse`: counts the value's tokens, selects the
method with ratio thresholds 0.5 / 0.8 / 1.0, and for the `default`
(ratio ≥ 1) tier truncates to `truncTarget limit` tokens before maximum
compression.  Serialization and gzip/brotli are content-preserving external
byte codecs, so the payload component is the value whose serialization is
emitted (truncated only in the last tier). -/
def optimizeResponse (c : Value → Nat) (cs : String → Nat) (v : Value)
    (limit : Int) : Value × String :=
  let tokens : Int := c v
  let r : ℚ := (tokens : ℚ) / (limit : ℚ)
  if r < 1/2 then (v, "none")
  else if r < 4/5 then (v, "gzip")
  else if r < 1 then (v, "brotli-4")
  else (truncateData c cs v (truncTarget limit), "brotli-11-truncated")

/-- The method §4.A's thresholds would select, expressed with this pipeline's
method labels (`gzip` = light, `brotli-4` = medium,
`brotli-11-truncated` = aggressive with truncation).  This is the
spec-side selector the claim compares `OptimizeResponse` against; it is
`getCompressionStrategy` relabelled. -/
def specSelectMethod (tokens limit : Int) : String :=
  let r : ℚ := (tokens : ℚ) / (limit : ℚ)
  if r < 1/2 then "none"
  else if r < 7/10 then "gzip"
  else if r < 9/10 then "brotli-4"
  else "brotli-11-truncated"

/-- The priority-field conjunct of the truncation claim: every key of the
priority list present in `data` whose token count fits the budget remaining
when the priority loop reaches it ends up in the truncated map. -/
def priorityHolds (c : Value → Nat) (cs : String → Nat)
    (data : List (String × Value)) (target : Int) : Prop :=
  ∀ pf1 f pf2 v, priorityFields = pf1 ++ f :: pf2 →
    Cache.lookupA data f = some v →
    (prioPassOn c data target pf1).2 + (c v : Int) ≤ target →
    (Cache.lookupA (truncateMap c cs data target) f).isSome

/-- The truncation claim as stated: for every tokenizer (the external counter
is known to give at least one token to every value, since any value
marshals to nonempty JSON), every mapping and every budget, the truncated
map's own token count stays within the budget and the fitting priority
fields are kept. -/
def claimTruncateBound : Prop :=
  ∀ (c : Value → Nat) (cs : String → Nat), (∀ v, 0 < c v) →
    ∀ data target,
      ((c (.obj (truncateMap c cs data target)) : Int) ≤ target ∧
       priorityHolds c cs data target)

/-- The tier characterization `OptimizeResponse` actually implements: method
by ratio with thresholds 0.5 / 0.8 / 1.0, and truncation to
`truncTarget limit` tokens exactly in the last tier. -/
def optimizeCharacterization (c : Value → Nat) (cs : String → Nat) (v : Value)
    (limit : Int) : Prop :=
  ((optimizeResponse c cs v limit).2 = "none" ↔
      ((c v : Int) : ℚ) / (limit : ℚ) < 1/2) ∧
  ((optimizeResponse c cs v limit).2 = "gzip" ↔
      (1/2 ≤ ((c v : Int) : ℚ) / (limit : ℚ) ∧
       ((c v : Int) : ℚ) / (limit : ℚ) < 4/5)) ∧
  ((optimizeResponse c cs v limit).2 = "brotli-4" ↔
      (4/5 ≤ ((c v : Int) : ℚ) / (limit : ℚ) ∧
       ((c v : Int) : ℚ) / (limit : ℚ) < 1)) ∧
  ((optimizeResponse c cs v limit).2 = "brotli-11-truncated" ↔
      1 ≤ ((c v : Int) : ℚ) / (limit : ℚ)) ∧
  (1 ≤ ((c v : Int) : ℚ) / (limit : ℚ) →
      optimizeResponse c cs v limit =
        (truncateData c cs v (truncTarget limit), "brotli-11-truncated"))

/-- The compression claim as stated: `OptimizeResponse` picks its method by
the §4.A thresholds (0.5 / 0.7 / 0.9, `specSelectMethod`). -/
def claimOptimizeSpecThresholds : Prop :=
  ∀ (c : Value → Nat) (cs : String → Nat) (v : Value) (limit : Int),
    0 < limit →
    (optimizeResponse c cs v limit).2 = specSelectMethod (c v : Int) limit

end Comp

namespace IndexEngine

/-- Source: internal/index/manager.go, `Location`. -/
structure Location where
  sheetName : String
  cellRef : String
  row : Int
  col : Int
  deriving Repr, DecidableEq

/-- Source: internal/index/manager.go, `Rectangle`.  Go float64 coordinates;
every coordinate reachable here is a small dyadic rational on which float64
arithmetic is exact, so `Rat` models it faithfully. -/
structure Rect where
  x : ℚ
  y : ℚ
  w : ℚ
  h : ℚ
  deriving Repr, DecidableEq

/-- Source: internal/index/manager.go, `SpatialPoint` (the `interface{}` value
is the cell string). -/
structure SpatialPoint where
  x : ℚ
  y : ℚ
  value : String
  loc : Location
  deriving Repr, DecidableEq

/-- Source: `Rectangle.Contains` (half-open on the right and bottom). -/
def rectContains (r : Rect) (px py : ℚ) : Bool :=
  r.x ≤ px ∧ px < r.x + r.w ∧ r.y ≤ py ∧ py < r.y + r.h

/-- Source: `QuadTree.intersects`. -/
def rectIntersects (qt b : Rect) : Bool :=
  ¬(qt.x + qt.w ≤ b.x ∨ b.x + b.w ≤ qt.x ∨ qt.y + qt.h ≤ b.y ∨ b.y + b.h ≤ qt.y)

/-- Source: internal/index/manager.go, `QuadTree`.  `children[0] == nil`
corresponds to `leaf`; a subdivided node always has all four children. -/
inductive QuadTree where
  | leaf (bounds : Rect) (points : List SpatialPoint) (capacity : Nat)
  | node (bounds : Rect) (points : List SpatialPoint) (capacity : Nat)
      (c0 c1 c2 c3 : QuadTree)

def QuadTree.bounds : QuadTree → Rect
  | .leaf b _ _ => b
  | .node b _ _ _ _ _ _ => b

def QuadTree.points : QuadTree → List SpatialPoint
  | .leaf _ p _ => p
  | .node _ p _ _ _ _ _ => p

def QuadTree.capacity : QuadTree → Nat
  | .leaf _ _ c => c
  | .node _ _ c _ _ _ _ => c

/-- Source: `NewQuadTree`. -/
def newQuadTree (b : Rect) (cap : Nat) : QuadTree := .leaf b [] cap

/-- Source: `QuadTree.subdivide`: the four equal quadrants, in child order. -/
def quad0 (b : Rect) : Rect := ⟨b.x, b.y, b.w / 2, b.h / 2⟩

def quad1 (b : Rect) : Rect := ⟨b.x + b.w / 2, b.y, b.w / 2, b.h / 2⟩

def quad2 (b : Rect) : Rect := ⟨b.x, b.y + b.h / 2, b.w / 2, b.h / 2⟩

def quad3 (b : Rect) : Rect := ⟨b.x + b.w / 2, b.y + b.h / 2, b.w / 2, b.h / 2⟩

/-- Inserting into a freshly subdivided (empty) child: the Go recursion
`qt.children[i].Insert(point)` lands in a leaf with no points, which keeps
the point exactly when the child's rectangle contains it (the repository
only builds trees with capacity 10 > 0; capacity 0 would not terminate in
Go and keeps the leaf unchanged here). -/
def leafIns (b : Rect) (cap : Nat) (p : SpatialPoint) : QuadTree :=
  if rectContains b p.x p.y ∧ 0 < cap then .leaf b [p] cap else .leaf b [] cap

/-- Source: `QuadTree.Insert`: discard points outside the bounds; append when
a leaf has room; otherwise subdivide once (existing points stay in the
parent, as in the Go code) and push the new point into every child whose
rectangle contains it; in an already subdivided node recurse into all four
children. -/
def qtInsert : QuadTree → SpatialPoint → QuadTree
  | .leaf b pts cap, p =>
    if ¬ rectContains b p.x p.y then .leaf b pts cap
    else if pts.length < cap then .leaf b (pts ++ [p]) cap
    else
      .node b pts cap (leafIns (quad0 b) cap p) (leafIns (quad1 b) cap p)
        (leafIns (quad2 b) cap p) (leafIns (quad3 b) cap p)
  | .node b pts cap c0 c1 c2 c3, p =>
    if ¬ rectContains b p.x p.y then .node b pts cap c0 c1 c2 c3
    else .node b pts cap (qtInsert c0 p) (qtInsert c1 p) (qtInsert c2 p)
      (qtInsert c3 p)

/-- Source: `QuadTree.Query`. -/
def qtQuery : QuadTree → Rect → List SpatialPoint
  | .leaf b pts _, r =>
    if ¬ rectIntersects b r then []
    else pts.filter (fun p => rectContains r p.x p.y)
  | .node b pts _ c0 c1 c2 c3, r =>
    if ¬ rectIntersects b r then []
    else pts.filter (fun p => rectContains r p.x p.y) ++
      qtQuery c0 r ++ qtQuery c1 r ++ qtQuery c2 r ++ qtQuery c3 r

/-- Source: internal/index/manager.go, `parseFloat`: the body is the stub
`return 0, fmt.Errorf("not implemented")`, so parsing fails on every
string. -/
def parseFloat (_s : String) : Option ℚ := none

/-- Source: `parseNumber` restricted to strings, the only dynamic type
`GetRows` produces during a build. -/
def parseNumberStr (s : String) : Option ℚ := parseFloat s

/-- Source: `isNumericString`. -/
def isNumericString (s : String) : Bool := (parseFloat s).isSome

/-- Source: `isText` restricted to strings. -/
def isText (s : String) : Bool := s ≠ "" ∧ ¬ isNumericString s

/-- Source: the stop-word set of `tokenizeText`. -/
def stopWords : List String :=
  ["the", "a", "an", "and", "or", "but", "in", "on", "at", "to",
   "for", "of", "with", "by", "is"]

/-- Source: `tokenizeText`: lowercase, split on whitespace (`strings.Fields`),
keep words longer than 2 bytes that are not stop words (ASCII data, so
byte and character lengths agree). -/
def tokenizeText (text : String) : List String :=
  let words := Strutil.fieldsStr (Strutil.toLowerStr text)
  words.filter (fun w => 2 < w.length ∧ ¬ stopWords.contains w)

/-- One posting append of `addToInverted` for one token. -/
def appendPosting (inv : List (String × List Location)) (t : String)
    (loc : Location) : List (String × List Location) :=
  match Cache.lookupA inv t with
  | some locs => Cache.upsertA inv t (locs ++ [loc])
  | none => (t, [loc]) :: inv

/-- Source: internal/index/manager.go, `Manager`.  The `bloom` field models
the external `bits-and-blooms` filter by the exact set of added keys: the
library guarantees no false negatives, the only direction any claim here
uses (a false positive merely skips the early exit of `SearchText`).  The
`primary` B-tree holds `(value, location)` items ordered by value with the
sheet name as tiebreaker; element order is abstracted to a list because
every claim uses only membership.  `lastUpdate` and `deltaBuffer` carry no
claim content and are omitted; the RWMutex disappears with explicit state. -/
structure Manager where
  primary : List (ℚ × Location)
  inverted : List (String × List Location)
  spatial : QuadTree
  bloom : List String

/-- Source: `NewManager`: bloom for 100k at 1%, `btree.New(32)`, quadtree over
`(0,0,1000,1000)` with capacity 10. -/
def newManager : Manager :=
  { primary := [], inverted := [],
    spatial := newQuadTree ⟨0, 0, 1000, 1000⟩ 10, bloom := [] }

/-- Source: `btree.ReplaceOrInsert` under `NumericKey.Less` (value, then sheet
name): replaces the item with equal value and sheet name, otherwise
inserts. -/
def btreeInsert (l : List (ℚ × Location)) (key : ℚ × Location) :
    List (ℚ × Location) :=
  if l.any (fun q => q.1 = key.1 ∧ q.2.sheetName = key.2.sheetName) then
    l.map (fun q =>
      if q.1 = key.1 ∧ q.2.sheetName = key.2.sheetName then key else q)
  else key :: l

/-- Source: `addToInverted`. -/
def addToInverted (m : Manager) (text : String) (loc : Location) : Manager :=
  let inv := (tokenizeText text).foldl (fun inv t => appendPosting inv t loc) m.inverted
  { m with inverted := inv }

/-- Column-number to column-name conversion (external
`excelize.CoordinatesToCellName`, standard bijective base-26). -/
def colName : Nat → String
  | 0 => ""
  | n + 1 =>
    colName (n / 26) ++ String.mk [Char.ofNat (65 + n % 26)]

/-- External `excelize.CoordinatesToCellName` (1-based column and row). -/
def coordsToCellName (col row : Nat) : String :=
  colName col ++ toString row

/-- The `IndexLocation` every store records for the cell at 0-based row
`rowIdx` and column `colIdx`: 1-based row/column numbers and the excelize
cell reference. -/
def cellLoc (sheetName : String) (rowIdx colIdx : Nat) : Location :=
  { sheetName := sheetName, cellRef := coordsToCellName (colIdx + 1) (rowIdx + 1),
    row := (rowIdx : Int) + 1, col := (colIdx : Int) + 1 }

/-- Source: the body of the cell loop of `indexSheet` for one non-empty cell
at 0-based `(rowIdx, colIdx)`: B-tree insert when the value parses as a
number (it never does, `parseFloat` is a stub), inverted-index append when
textual, spatial insert at the 0-based `(colIdx, rowIdx)`, bloom add of the
raw string. -/
def indexCell (m : Manager) (sheetName : String) (rowIdx colIdx : Nat)
    (cellValue : String) : Manager :=
  if cellValue = "" then m
  else
    let loc : Location := cellLoc sheetName rowIdx colIdx
    let m1 :=
      match parseNumberStr cellValue with
      | some n => { m with primary := btreeInsert m.primary (n, loc) }
      | none => m
    let m2 := if isText cellValue then addToInverted m1 cellValue loc else m1
    let m3 :=
      { m2 with spatial := qtInsert m2.spatial ⟨(colIdx : ℚ), (rowIdx : ℚ), cellValue, loc⟩ }
    { m3 with bloom := cellValue :: m3.bloom }

/-- Source: `indexSheet`: iterate rows then cells with 0-based indices. -/
def indexSheet (m : Manager) (sheetName : String) (rows : List (List String)) :
    Manager :=
  rows.enum.foldl
    (fun m ri =>
      ri.2.enum.foldl (fun m ci => indexCell m sheetName ri.1 ci.1 ci.2) m)
    m

/-- The opened workbook as seen through the external reader: sheet name to
`GetRows` result. -/
structure XFile where
  sheets : List (String × List (List String))

/-- External `excelize.File.GetRows`; a missing sheet aborts the Go build with
an error, so claims range over present sheets and absence is modelled as no
rows. -/
def getRows (f : XFile) (sheetName : String) : List (List String) :=
  (Cache.lookupA f.sheets sheetName).getD []

/-- Source: `Manager.BuildFromFile`. -/
def buildFromFile (m : Manager) (f : XFile) (sheetNames : List String) :
    Manager :=
  sheetNames.foldl (fun m s => indexSheet m s (getRows f s)) m

/-- Source: `intersectLocations`: keep the elements of `a` present in `b`. -/
def intersectLocations (a b : List Location) : List Location :=
  a.filter (fun loc => decide (loc ∈ b))

/-- The intersection loop of `SearchText` over the remaining tokens: a token
with no postings returns the empty result immediately. -/
def intersectAll (inv : List (String × List Location)) :
    List String → List Location → List Location
  | [], acc => acc
  | t :: ts, acc =>
    match Cache.lookupA inv t with
    | some locs => intersectAll inv ts (intersectLocations acc locs)
    | none => []

/-- Source: `Manager.SearchText`: bloom prefilter, tokenize, postings of the
first token, then intersect the rest. -/
def searchText (m : Manager) (query : String) : List Location :=
  if ¬ m.bloom.contains query then []
  else
    match tokenizeText query with
    | [] => []
    | t0 :: ts =>
      let start :=
        match Cache.lookupA m.inverted t0 with
        | some locs => locs
        | none => []
      intersectAll m.inverted ts start

/-- Source: `Manager.SearchNumericRange`: `AscendRange(minKey, maxKey)` over
`NumericKey.Less` with zero-valued location tiebreakers, which is exactly
the half-open value interval `[min, max)` (no sheet name is below `""`). -/
def searchNumericRange (m : Manager) (lo hi : ℚ) : List Location :=
  (m.primary.filter (fun q => lo ≤ q.1 ∧ q.1 < hi)).map (fun q => q.2)

/-- Source: `Manager.SearchSpatial`. -/
def searchSpatial (m : Manager) (bounds : Rect) : List Location :=
  (qtQuery m.spatial bounds).map (fun p => p.loc)

/-- A location is on the posting list of a token. -/
def postingHas (inv : List (String × List Location)) (t : String)
    (loc : Location) : Prop :=
  ∃ locs, Cache.lookupA inv t = some locs ∧ loc ∈ locs

/-- Structural well-formedness of the quadtrees the repository builds: every
node's capacity is positive (the source always uses 10) and the children of
a subdivided node carry the four quadrant rectangles of their parent, as
`subdivide` creates them. -/
def qtWF : QuadTree → Prop
  | .leaf _ _ cap => 0 < cap
  | .node b _ cap c0 c1 c2 c3 =>
    0 < cap ∧ c0.bounds = quad0 b ∧ c1.bounds = quad1 b ∧
    c2.bounds = quad2 b ∧ c3.bounds = quad3 b ∧
    qtWF c0 ∧ qtWF c1 ∧ qtWF c2 ∧ qtWF c3

/-- The bloom and inverted-index facts `SearchText` relies on for one cell
value `v` recorded at `loc`. -/
def textIndexed (M : Manager) (v : String) (loc : Location) : Prop :=
  v ∈ M.bloom ∧ ∀ t ∈ tokenizeText v, postingHas M.inverted t loc

/-- The spatial-store invariant of every manager the repository constructs:
a well-formed quadtree over the fixed `(0,0,1000,1000)` world of
`NewManager`. -/
def spatialWF (M : Manager) : Prop :=
  qtWF M.spatial ∧ M.spatial.bounds = ⟨0, 0, 1000, 1000⟩

/-- The retrieval property claimed for every non-empty cell of a built index:
`searchText` on the raw value finds the cell when it is textual, a degenerate
`searchNumericRange` finds it when the value parses as the number `q`, and
`searchSpatial` finds it for every rectangle around the location's (1-based)
column and row. -/
def claimIndexRetrieval : Prop :=
  ∀ (f : XFile) (names : List String) (s : String) (ri ci : Nat)
    (row : List String) (v : String),
    s ∈ names →
    (ri, row) ∈ (getRows f s).enum →
    (ci, v) ∈ row.enum → v ≠ "" →
    (isText v = true →
      cellLoc s ri ci ∈ searchText (buildFromFile newManager f names) v) ∧
    (∀ q : ℚ, parseFloat v = some q →
      cellLoc s ri ci ∈
        searchNumericRange (buildFromFile newManager f names) q q) ∧
    (∀ rect : Rect, rectContains rect ((ci : ℚ) + 1) ((ri : ℚ) + 1) = true →
      cellLoc s ri ci ∈ searchSpatial (buildFromFile newManager f names) rect)

end IndexEngine

namespace QueryTool

/-- Source: internal/models/types.go, `SheetMetadata`. -/
structure SheetMeta where
  rows : Int
  cols : Int
  dataDensity : ℚ
  hasFormulas : Bool
  memoryFootprint : Int
  deriving Repr, DecidableEq

/-- Source: internal/models/types.go, `SheetIndex` (zones, key points and hot
zones are never read on the query path and are omitted). -/
structure SheetIdx where
  sheetId : String
  name : String
  metadata : SheetMeta
  deriving Repr, DecidableEq

/-- Source: internal/models/types.go, `ChunkInfo`. -/
structure ChunkInfo where
  current : String
  totalChunks : Int
  sheetsInChunk : List String
  streamingActive : Bool
  deriving Repr, DecidableEq

/-- Source: internal/models/types.go, `NavigationIndex` (the fields the query
path reads). -/
structure NavigationIndex where
  checksumMatch : Bool
  invalidationRequired : Bool
  chunkInfo : ChunkInfo
  sheetIndex : List SheetIdx
  deriving Repr, DecidableEq

/-- The caller-supplied `navigation_index` JSON object, abstracted to the
sheets it enumerates (the only feature any claim mentions). -/
structure RawNavigationIndex where
  sheets : List String
  deriving Repr, DecidableEq

/-- Source: `ToolHandler.parseNavigationIndex`: the body never reads its
argument and returns a fixed single-sheet placeholder ("simplified
version" per its comment). -/
def parseNavigationIndex (_data : RawNavigationIndex) : NavigationIndex :=
  { checksumMatch := true, invalidationRequired := false,
    chunkInfo := { current := "chunk_0", totalChunks := 1,
                   sheetsInChunk := ["Sheet1"], streamingActive := false },
    sheetIndex :=
      [{ sheetId := "sheet_0", name := "Sheet1",
         metadata := { rows := 1000, cols := 26, dataDensity := 1/2,
                       hasFormulas := true, memoryFootprint := 1024000 } }] }

/-- Source: `optimization_hints` after merging the defaults
`prefer_speed = true`, `prefer_completeness = false`. -/
structure OptimizationHints where
  preferSpeed : Bool
  preferCompleteness : Bool
  deriving Repr, DecidableEq

def defaultHints : OptimizationHints :=
  { preferSpeed := true, preferCompleteness := false }

/-- Source: `window_config` after extraction (defaults 1000 / 10 / 100 /
false). -/
structure WindowConfig where
  maxRowsPerSheet : Int
  maxSheetsPerCall : Int
  maxResults : Int
  streamLargeResults : Bool
  deriving Repr, DecidableEq

def defaultWindowConfig : WindowConfig :=
  { maxRowsPerSheet := 1000, maxSheetsPerCall := 10, maxResults := 100,
    streamLargeResults := false }

/-- Source: `ToolHandler.determineQueryStrategy`. -/
def determineQueryStrategy (query : String) (navIndex : NavigationIndex)
    (hints : OptimizationHints) : String :=
  if Strutil.containsChar query '=' ∧ hints.preferSpeed then "index"
  else if Strutil.containsChar query '*' ∨ Strutil.containsChar query '?' then "scan"
  else if 10 < navIndex.sheetIndex.length then "hybrid"
  else "scan"

/-- Source: `ToolHandler.detectIndexType`. -/
def detectIndexType (query : String) : String :=
  if Strutil.containsSubstr query ">=" ∨ Strutil.containsSubstr query "<=" ∨
     Strutil.containsChar query '>' ∨ Strutil.containsChar query '<' then "btree"
  else if Strutil.containsSubstr query "NEAR" ∨ Strutil.containsSubstr query "WITHIN" then "spatial"
  else "inverted"

/-- Source: `isNumericRangeQuery`. -/
def isNumericRangeQuery (query : String) : Bool :=
  Strutil.containsSubstr query ">=" ∨ Strutil.containsSubstr query "<=" ∨
  Strutil.containsChar query '>' ∨ Strutil.containsChar query '<' ∨ Strutil.containsSubstr query "BETWEEN"

/-- Source: `isSpatialQuery`. -/
def isSpatialQuery (query : String) : Bool :=
  Strutil.containsSubstr query "NEAR" ∨ Strutil.containsSubstr query "WITHIN" ∨
  Strutil.containsSubstr query "RANGE"

/-- Source: `isTextQuery`. -/
def isTextQuery (query : String) : Bool :=
  ¬ isNumericRangeQuery query ∧ ¬ isSpatialQuery query

/-- Source: `parseNumericRange` (fixed placeholder ranges). -/
def parseNumericRange (query : String) : ℚ × ℚ :=
  if Strutil.containsSubstr query "BETWEEN" then (10, 20)
  else if Strutil.containsSubstr query ">=" then (10, 999999)
  else (0, 100)

/-- Source: `parseSpatialBounds` (fixed placeholder bounds). -/
def parseSpatialBounds (_query : String) : IndexEngine.Rect :=
  ⟨0, 0, 100, 100⟩

/-- A cell of the extracted scan payload: `nil`, a parsed number, or the raw
string (`extractRealSheetData`'s `processedRow`). -/
inductive CellV where
  | empty
  | num (q : ℚ)
  | str (s : String)
  deriving Repr, DecidableEq

/-- The `data_chunk` payload: `"sample_value"` on the index path, extracted
rows on the scan path. -/
inductive Payload where
  | sample
  | table (rows : List (List CellV))
  deriving Repr, DecidableEq

/-- Source: internal/models/types.go, `ChunkMetadata`. -/
structure ChunkMeta where
  size : Int
  truncated : Bool
  compressed : Bool
  deriving Repr, DecidableEq

/-- Source: internal/models/types.go, `DataChunk` (context collapsed to its
headers, the only populated part). -/
structure DataChunk where
  location : String
  window : String
  dataChunk : Payload
  metadata : ChunkMeta
  headers : List String
  deriving Repr, DecidableEq

/-- Source: internal/models/types.go, `QueryExecution`. -/
structure QueryExecution where
  usedIndex : Bool
  indexType : String
  chunksScanned : List String
  strategy : String
  bloomFilterUsed : Bool
  deriving Repr, DecidableEq

/-- Source: internal/models/types.go, `QueryResults`. -/
structure QueryResults where
  data : List DataChunk
  deriving Repr, DecidableEq

/-- Source: `convertLocationsToDataChunks`. -/
def convertLocationsToDataChunks (locs : List IndexEngine.Location)
    (cfg : WindowConfig) : List DataChunk :=
  (locs.take cfg.maxResults.toNat).map (fun loc =>
    { location := loc.sheetName ++ "!" ++ loc.cellRef,
      window := loc.cellRef ++ ":" ++ loc.cellRef,
      dataChunk := .sample,
      metadata := { size := 64, truncated := false, compressed := false },
      headers := [] })

/-- Source: `ToolHandler.executeIndexQuery` (`parseNumericRange` and
`parseSpatialBounds` never fail, so the function is total). -/
def executeIndexQuery (query : String) (m : IndexEngine.Manager)
    (cfg : WindowConfig) : List DataChunk :=
  let results :=
    if isNumericRangeQuery query then
      let r := parseNumericRange query
      convertLocationsToDataChunks (IndexEngine.searchNumericRange m r.1 r.2) cfg
    else if isTextQuery query then
      convertLocationsToDataChunks (IndexEngine.searchText m query) cfg
    else if isSpatialQuery query then
      convertLocationsToDataChunks
        (IndexEngine.searchSpatial m (parseSpatialBounds query)) cfg
    else []
  if cfg.maxResults < (results.length : Int) then results.take cfg.maxResults.toNat
  else results

/-- Source: the sheet loop of `executeScanQuery`: record every visited sheet
id, and for sheets whose upper-cased name contains the upper-cased query,
extract rows through `extract` (the external hard-coded-path
`extractRealSheetData`, a parameter because it reads the filesystem); an
extraction error skips the sheet. -/
def scanSheets (extract : String → Int → Except String (List (List CellV)))
    (query : String) (cfg : WindowConfig) :
    List (Nat × SheetIdx) → List DataChunk × List String → List DataChunk × List String
  | [], acc => acc
  | (i, sheet) :: rest, acc =>
    if cfg.maxSheetsPerCall ≤ (i : Int) then acc
    else
      let scanned := acc.2 ++ [sheet.sheetId]
      if Strutil.containsSubstr (Strutil.toUpperStr sheet.name) (Strutil.toUpperStr query) then
        match extract sheet.name cfg.maxRowsPerSheet with
        | .error _ => scanSheets extract query cfg rest (acc.1, scanned)
        | .ok realData =>
          let chunk : DataChunk :=
            { location := sheet.name ++ "!A1",
              window := "A1:Z" ++ toString cfg.maxRowsPerSheet,
              dataChunk := .table realData,
              metadata := { size := (realData.length : Int) * 100,
                            truncated := cfg.maxRowsPerSheet < sheet.metadata.rows,
                            compressed := false },
              headers := ["Rayons", "Ventes_HT", "Marges", "Taux_Marge",
                          "Demarque", "Frais", "Marge_Theorique"] }
          scanSheets extract query cfg rest (acc.1 ++ [chunk], scanned)
      else scanSheets extract query cfg rest (acc.1, scanned)

/-- Source: `ToolHandler.executeScanQuery` (its error result is always nil). -/
def executeScanQuery (extract : String → Int → Except String (List (List CellV)))
    (query : String) (navIndex : NavigationIndex) (cfg : WindowConfig) :
    List DataChunk × List String :=
  scanSheets extract query cfg navIndex.sheetIndex.enum ([], [])

/-- Source: `ToolHandler.executeQuery`: pick the strategy, create a fresh
(never populated) `index.NewManager()`, and dispatch; on the hybrid path
both sub-results are concatenated and the errors are discarded (none can
occur). -/
def executeQuery (extract : String → Int → Except String (List (List CellV)))
    (query : String) (navIndex : NavigationIndex) (cfg : WindowConfig)
    (hints : OptimizationHints) :
    Except String (QueryExecution × QueryResults) :=
  let strategy := determineQueryStrategy query navIndex hints
  let m := IndexEngine.newManager
  if strategy = "index" then
    let results := executeIndexQuery query m cfg
    .ok ({ usedIndex := true, indexType := detectIndexType query,
           chunksScanned := [], strategy := strategy, bloomFilterUsed := true },
         { data := results })
  else if strategy = "scan" then
    let r := executeScanQuery extract query navIndex cfg
    .ok ({ usedIndex := false, indexType := "none", chunksScanned := r.2,
           strategy := strategy, bloomFilterUsed := false },
         { data := r.1 })
  else if strategy = "hybrid" then
    let ir := executeIndexQuery query m cfg
    let sr := executeScanQuery extract query navIndex cfg
    .ok ({ usedIndex := true, indexType := "hybrid", chunksScanned := sr.2,
           strategy := strategy, bloomFilterUsed := true },
         { data := ir ++ sr.1 })
  else .error ("unknown query strategy: " ++ strategy)

/-- The `query_data` pipeline from the raw `navigation_index` argument to the
`query_execution`/`results` pair of the response: `parseNavigationIndex`
followed by `executeQuery` (source: `ToolHandler.QueryData`). -/
def queryDataExec (extract : String → Int → Except String (List (List CellV)))
    (raw : RawNavigationIndex) (query : String) (cfg : WindowConfig)
    (hints : OptimizationHints) :
    Except String (QueryExecution × QueryResults) :=
  executeQuery extract query (parseNavigationIndex raw) cfg hints

end QueryTool

/-!
Theorems.  Each claim of the specification gets exactly one theorem below
(plus, where required, a closed counterexample or witness).  Helper lemmas
carry no claim names.
-/

/-- C7: decoding an encoded cursor succeeds and returns the payload with its
chunk_id, offset, checksum and window unchanged, the version set to
`CURSOR_VERSION`, and the timestamp set to the encoding time (the
just-encoded cursor is 0 seconds old, well within the 24-hour bound). -/
theorem C7_cursor_roundtrip (now : Int) (d : CursorCodec.CursorData) :
    CursorCodec.parseCursor now (CursorCodec.generateCursor now d) =
      .ok { d with version := CursorCodec.CURSOR_VERSION, timestamp := now } := by
  simp [CursorCodec.parseCursor, CursorCodec.generateCursor]

/-- C8 counterexample: for the unknown method `"frobnicate"` the dispatcher
produces error code -32603 on the HTTP transport and -32000 on the
line-delimited transport, in both cases not the claimed -32601. -/
theorem C8_counterexample :
    Dispatch.httpErrorOf "frobnicate" =
      some (-32603, "unknown method: frobnicate") ∧
    Dispatch.stdioErrorOf "frobnicate" =
      some (-32000, "unknown method: frobnicate") ∧
    ¬ (Dispatch.httpErrorOf "frobnicate").map Prod.fst = some (-32601) ∧
    ¬ (Dispatch.stdioErrorOf "frobnicate").map Prod.fst = some (-32601) := by
  decide

/-- C8 amended: every request whose method is outside the six-entry method
table gets a JSON-RPC error with message `unknown method: <m>`, carrying
code -32603 on the HTTP transport and -32000 on the line-delimited
transport (-32601 is never produced). -/
theorem C8_unknown_method (m : String) (h : m ∉ Dispatch.knownMethods) :
    Dispatch.httpErrorOf m = some (-32603, "unknown method: " ++ m) ∧
    Dispatch.stdioErrorOf m = some (-32000, "unknown method: " ++ m) := by
  simp only [Dispatch.knownMethods, List.mem_cons, List.not_mem_nil, or_false,
    not_or] at h
  obtain ⟨h1, h2, h3, h4, h5, h6⟩ := h
  have hroute : Dispatch.routeRequest m = .error ("unknown method: " ++ m) := by
    unfold Dispatch.routeRequest
    rw [if_neg]
    simp [h1, h2, h3, h4, h5, h6]
  constructor
  · unfold Dispatch.httpErrorOf
    rw [hroute]
  · unfold Dispatch.stdioErrorOf
    rw [hroute]

/-- C8 witness for `C8_unknown_method` at the concrete method
`"frobnicate"`. -/
theorem C8_unknown_method_witness :
    Dispatch.httpErrorOf "frobnicate" =
      some (-32603, "unknown method: frobnicate") ∧
    Dispatch.stdioErrorOf "frobnicate" =
      some (-32000, "unknown method: frobnicate") :=
  C8_unknown_method "frobnicate" (by decide)

/-- C5: `calculateFileChecksum` is a stub returning `"dummy_checksum"`, so at
the failing input — a workbook whose genuine SHA-256 hex digest is supplied
as the `checksum` parameter — `checksum_match` is false,
`invalidation_required` is true, and `cache_control.hot_data_extension` is
false, contradicting the claim that an unchanged file with its true
checksum yields `checksum_match = true` and `hot_data_extension = true`. -/
theorem C5_checksum_stub :
    NavTool.calculateFileChecksum "wb.xlsm" = "dummy_checksum" ∧
    NavTool.navChecksumFields "wb.xlsm"
        "e3b0c44298fc1c149afbf4c8996fb92427ae41e4649b934ca495991b7852b855" =
      (false, true,
       { ttlSeconds := 300, invalidateOnChecksum := true,
         hotDataExtension := false,
         cacheKey :=
           "nav_e3b0c44298fc1c149afbf4c8996fb92427ae41e4649b934ca495991b7852b855" }) := by
  constructor
  · rfl
  · rfl

/-- C2 counterexample: at 3 tokens against limit 4 (ratio 0.75) the code picks
`gzip` while the §4.A thresholds of the claim demand the medium brotli
tier, so `OptimizeResponse` does not select by the §4.A thresholds. -/
theorem C2_counterexample : ¬ Comp.claimOptimizeSpecThresholds := by
  intro h
  have h34 := h (fun _ => 3) (fun _ => 1) .null 4 (by norm_num)
  have hgz : (Comp.optimizeResponse (fun _ => 3) (fun _ => 1) .null 4).2 =
      "gzip" := by
    norm_num [Comp.optimizeResponse]
  have hsp : Comp.specSelectMethod ((3 : Nat) : Int) 4 = "brotli-4" := by
    norm_num [Comp.specSelectMethod]
  rw [hgz, hsp] at h34
  exact absurd h34 (by decide)

/-- Fidelity samples for `truncTarget`: the float64 product falls below
`0.7 · limit` at the standard 180000-token safe buffer (125999, not
126000), while small limits behave as expected. -/
theorem truncTarget_values :
    Comp.truncTarget 180000 = 125999 ∧ Comp.truncTarget 4 = 2 ∧
    Comp.truncTarget 10 = 7 := by decide

/-- C2 amended: `OptimizeResponse` selects by the ratio tokens/limit with
thresholds 0.5 / 0.8 / 1.0 — ratio < 0.5 plain JSON (`none`),
0.5 ≤ ratio < 0.8 `gzip`, 0.8 ≤ ratio < 1 `brotli-4`, and ratio ≥ 1
truncation to `truncTarget limit` (`int(float64(limit) * 0.7)`, which is
125999 at the standard 180000 safe buffer) tokens followed by
maximum-quality brotli under the truncation-marking name
`brotli-11-truncated`. -/
theorem C2_optimize_thresholds (c : Comp.Value → Nat) (cs : String → Nat)
    (v : Comp.Value) (limit : Int) (_h : 0 < limit) :
    Comp.optimizeCharacterization c cs v limit := by
  have key : Comp.optimizeResponse c cs v limit =
      (if ((c v : Int) : ℚ) / (limit : ℚ) < 1/2 then (v, "none")
       else if ((c v : Int) : ℚ) / (limit : ℚ) < 4/5 then (v, "gzip")
       else if ((c v : Int) : ℚ) / (limit : ℚ) < 1 then (v, "brotli-4")
       else (Comp.truncateData c cs v (Comp.truncTarget limit),
             "brotli-11-truncated")) := rfl
  unfold Comp.optimizeCharacterization
  rw [key]
  by_cases h1 : ((c v : Int) : ℚ) / (limit : ℚ) < 1/2
  · rw [if_pos h1]
    exact ⟨⟨fun _ => h1, fun _ => rfl⟩,
      ⟨fun hx => absurd hx (by simp),
       fun hx => absurd hx.1 (not_le.mpr h1)⟩,
      ⟨fun hx => absurd hx (by simp),
       fun hx => absurd hx.1 (not_le.mpr (lt_of_lt_of_le h1 (by norm_num)))⟩,
      ⟨fun hx => absurd hx (by simp),
       fun hx => absurd hx (not_le.mpr (lt_of_lt_of_le h1 (by norm_num)))⟩,
      fun hx => absurd hx (not_le.mpr (lt_of_lt_of_le h1 (by norm_num)))⟩
  · by_cases h2 : ((c v : Int) : ℚ) / (limit : ℚ) < 4/5
    · rw [if_neg h1, if_pos h2]
      exact ⟨⟨fun hx => absurd hx (by simp), fun hx => absurd hx h1⟩,
        ⟨fun _ => ⟨le_of_not_lt h1, h2⟩, fun _ => rfl⟩,
        ⟨fun hx => absurd hx (by simp),
         fun hx => absurd hx.1 (not_le.mpr h2)⟩,
        ⟨fun hx => absurd hx (by simp),
         fun hx => absurd hx (not_le.mpr (lt_of_lt_of_le h2 (by norm_num)))⟩,
        fun hx => absurd hx (not_le.mpr (lt_of_lt_of_le h2 (by norm_num)))⟩
    · by_cases h3 : ((c v : Int) : ℚ) / (limit : ℚ) < 1
      · rw [if_neg h1, if_neg h2, if_pos h3]
        exact ⟨⟨fun hx => absurd hx (by simp), fun hx => absurd hx h1⟩,
          ⟨fun hx => absurd hx (by simp), fun hx => absurd hx.2 h2⟩,
          ⟨fun _ => ⟨le_of_not_lt h2, h3⟩, fun _ => rfl⟩,
          ⟨fun hx => absurd hx (by simp),
           fun hx => absurd hx (not_le.mpr h3)⟩,
          fun hx => absurd hx (not_le.mpr h3)⟩
      · rw [if_neg h1, if_neg h2, if_neg h3]
        exact ⟨⟨fun hx => absurd hx (by simp), fun hx => absurd hx h1⟩,
          ⟨fun hx => absurd hx (by simp), fun hx => absurd hx.2 h2⟩,
          ⟨fun hx => absurd hx (by simp), fun hx => absurd hx.2 h3⟩,
          ⟨fun _ => le_of_not_lt h3, fun _ => rfl⟩,
          fun _ => rfl⟩

/-- C2 witness for `C2_optimize_thresholds` at token count 0 against limit
1. -/
theorem C2_optimize_thresholds_witness :
    Comp.optimizeCharacterization (fun _ => 0) (fun _ => 0) .null 1 :=
  C2_optimize_thresholds (fun _ => 0) (fun _ => 0) .null 1 (by norm_num)

/-- Helper: every index-path search against the freshly constructed, never
populated index manager is empty. -/
theorem execIndexFreshEmpty (q : String) (cfg : QueryTool.WindowConfig) :
    QueryTool.executeIndexQuery q IndexEngine.newManager cfg = [] := by
  have hq : ∀ r, IndexEngine.qtQuery
      (IndexEngine.newQuadTree ⟨0, 0, 1000, 1000⟩ 10) r = [] := by
    intro r
    unfold IndexEngine.newQuadTree IndexEngine.qtQuery
    split <;> simp
  have hsn : ∀ a b, IndexEngine.searchNumericRange IndexEngine.newManager a b = [] :=
    fun a b => rfl
  have hst : IndexEngine.searchText IndexEngine.newManager q = [] := by
    simp [IndexEngine.searchText, IndexEngine.newManager]
  have hss : ∀ r, IndexEngine.searchSpatial IndexEngine.newManager r = [] := by
    intro r
    unfold IndexEngine.searchSpatial IndexEngine.newManager
    rw [hq]
    rfl
  unfold QueryTool.executeIndexQuery
  split_ifs with h1 h2 h3 <;>
    simp_all [QueryTool.convertLocationsToDataChunks, hsn, hst, hss]

/-- Helper: the strategy computed from any parsed navigation index: the
placeholder returned by `parseNavigationIndex` has exactly one sheet, so
the more-than-10-sheets hybrid branch is unreachable and every
non-equality, non-wildcard query falls through to `scan`. -/
theorem strategyOfParsed (raw : QueryTool.RawNavigationIndex) (q : String)
    (hints : QueryTool.OptimizationHints) :
    QueryTool.determineQueryStrategy q (QueryTool.parseNavigationIndex raw) hints =
      (if Strutil.containsChar q '=' ∧ hints.preferSpeed then "index"
       else "scan") := by
  unfold QueryTool.determineQueryStrategy QueryTool.parseNavigationIndex
  by_cases h1 : Strutil.containsChar q '=' ∧ hints.preferSpeed
  · rw [if_pos h1, if_pos h1]
  · rw [if_neg h1, if_neg h1]
    by_cases h2 : Strutil.containsChar q '*' ∨ Strutil.containsChar q '?'
    · rw [if_pos h2]
    · rw [if_neg h2, if_neg (by simp)]

/-- C9: whenever `query_data` selects the `index` strategy, the returned
`results.data` is empty: the search runs against the freshly constructed,
never-populated `index.NewManager()`, and the parsed navigation index is a
fixed placeholder independent of the `navigation_index` argument. -/
theorem C9_index_strategy_empty
    (extract : String → Int → Except String (List (List QueryTool.CellV)))
    (raw : QueryTool.RawNavigationIndex) (q : String)
    (cfg : QueryTool.WindowConfig) (hints : QueryTool.OptimizationHints)
    (h : QueryTool.determineQueryStrategy q (QueryTool.parseNavigationIndex raw)
        hints = "index") :
    QueryTool.queryDataExec extract raw q cfg hints =
      .ok ({ usedIndex := true, indexType := QueryTool.detectIndexType q,
             chunksScanned := [], strategy := "index",
             bloomFilterUsed := true }, { data := [] }) ∧
    (∀ raw' : QueryTool.RawNavigationIndex,
      QueryTool.parseNavigationIndex raw = QueryTool.parseNavigationIndex raw') := by
  refine ⟨?_, fun raw' => rfl⟩
  simp [QueryTool.queryDataExec, QueryTool.executeQuery, h, execIndexFreshEmpty]

/-- C9 witness for `C9_index_strategy_empty` at the equality query `"a=b"`
with default hints. -/
theorem C9_index_strategy_empty_witness :
    QueryTool.queryDataExec (fun _ _ => .error "io") ⟨[]⟩ "a=b"
        QueryTool.defaultWindowConfig QueryTool.defaultHints =
      .ok ({ usedIndex := true, indexType := QueryTool.detectIndexType "a=b",
             chunksScanned := [], strategy := "index",
             bloomFilterUsed := true }, { data := [] }) ∧
    (∀ raw' : QueryTool.RawNavigationIndex,
      QueryTool.parseNavigationIndex ⟨[]⟩ = QueryTool.parseNavigationIndex raw') :=
  C9_index_strategy_empty (fun _ _ => .error "io") ⟨[]⟩ "a=b"
    QueryTool.defaultWindowConfig QueryTool.defaultHints (by decide)

/-- C6 counterexample: a `query_data` call with the equality-free,
wildcard-free query `"somedata"` and a `navigation_index` argument
enumerating 11 sheets returns strategy `scan`, not the claimed `hybrid`:
`parseNavigationIndex` substitutes the one-sheet placeholder, so the
more-than-10-sheets branch never fires. -/
theorem C6_counterexample :
    QueryTool.queryDataExec (fun _ _ => .error "io")
        ⟨["s1", "s2", "s3", "s4", "s5", "s6", "s7", "s8", "s9", "s10", "s11"]⟩
        "somedata" QueryTool.defaultWindowConfig QueryTool.defaultHints =
      .ok ({ usedIndex := false, indexType := "none",
             chunksScanned := ["sheet_0"], strategy := "scan",
             bloomFilterUsed := false }, { data := [] }) ∧
    10 < (["s1", "s2", "s3", "s4", "s5", "s6", "s7", "s8", "s9", "s10",
           "s11"] : List String).length ∧
    ("scan" : String) ≠ "hybrid" := by
  refine ⟨by rfl, by decide, by decide⟩

/-- C6 amended: for every `query_data` call the response strategy is computed
from the parsed navigation index, which is always the fixed single-sheet
placeholder; hence a query containing `=` with `prefer_speed` yields
`index` and every other query — wildcard or not, whatever the
`navigation_index` argument enumerates — yields `scan` (`hybrid` is
unreachable). -/
theorem C6_strategy_selection
    (extract : String → Int → Except String (List (List QueryTool.CellV)))
    (raw : QueryTool.RawNavigationIndex) (q : String)
    (cfg : QueryTool.WindowConfig) (hints : QueryTool.OptimizationHints) :
    ∃ qe res, QueryTool.queryDataExec extract raw q cfg hints = .ok (qe, res) ∧
      qe.strategy =
        (if Strutil.containsChar q '=' ∧ hints.preferSpeed then "index"
         else "scan") := by
  have hs := strategyOfParsed raw q hints
  by_cases h : Strutil.containsChar q '=' ∧ hints.preferSpeed
  · rw [if_pos h] at hs
    refine ⟨{ usedIndex := true, indexType := QueryTool.detectIndexType q,
              chunksScanned := [], strategy := "index",
              bloomFilterUsed := true },
            { data := QueryTool.executeIndexQuery q IndexEngine.newManager cfg },
            ?_, by rw [if_pos h]⟩
    simp [QueryTool.queryDataExec, QueryTool.executeQuery, hs]
  · rw [if_neg h] at hs
    refine ⟨{ usedIndex := false, indexType := "none",
              chunksScanned := (QueryTool.executeScanQuery extract q
                (QueryTool.parseNavigationIndex raw) cfg).2,
              strategy := "scan", bloomFilterUsed := false },
            { data := (QueryTool.executeScanQuery extract q
                (QueryTool.parseNavigationIndex raw) cfg).1 },
            ?_, by rw [if_neg h]⟩
    simp [QueryTool.queryDataExec, QueryTool.executeQuery, hs]

/-- Helper: after `lruAdd`, the added key is at the front of the recency
order, so it is retrievable even when the capacity drop removed the oldest
entry. -/
theorem lookupA_lruAdd_self (l : List (String × Cache.CVal)) (k : String)
    (v : Cache.CVal) : Cache.lookupA (Cache.lruAdd l k v) k = some v := by
  unfold Cache.lruAdd
  dsimp only
  split
  · rcases he : List.eraseP (fun p => p.1 = k) l with _ | ⟨x, xs⟩ <;>
      rename_i hlen
    · rw [he] at hlen
      simp at hlen
    · rw [he]
      simp [List.dropLast, Cache.lookupA, List.find?]
  · simp [Cache.lookupA, List.find?]

/-- Helper: an accepted `Set` leaves the stored value retrievable under its
key. -/
theorem lookup_lru_after_set (st : Cache.SmartCache) (k : String)
    (v : Cache.CVal) (size now : Int)
    (h : (Cache.setOp st k v size now).2 = true) :
    Cache.lookupA (Cache.setOp st k v size now).1.lru k = some v := by
  by_cases hmem : st.maxMemory < st.currentMem + size
  · by_cases hev : (Cache.evictColdData st size now).2 = false
    · exfalso
      have hfalse : (Cache.setOp st k v size now).2 = false := by
        simp [Cache.setOp, hmem, hev]
      rw [h] at hfalse
      exact absurd hfalse (by decide)
    · simp [Cache.setOp, hmem, hev, lookupA_lruAdd_self]
  · simp [Cache.setOp, hmem, lookupA_lruAdd_self]

/-- C10: a value stored with plain `Set` (not a `*CacheEntry`) is returned by
`GetWithValidation` as a hit for every `expected_checksum` and at every
time: the type assertion fails, so both the expiration check and the
checksum comparison are skipped. -/
theorem C10_plain_set_skips_validation (st : Cache.SmartCache) (k : String)
    (p size now : Int) (expectedChecksum : String) (now' : Int)
    (h : (Cache.setOp st k (.raw p) size now).2 = true) :
    (Cache.getWithValidation (Cache.setOp st k (.raw p) size now).1 k
        expectedChecksum now').2 = some p := by
  have hl := lookup_lru_after_set st k (.raw p) size now h
  simp [Cache.getWithValidation, Cache.getOp, Cache.lruGetMove, hl]

/-- C10 witness for `C10_plain_set_skips_validation`: a raw value of size 1
set into a fresh cache is returned as a hit even with a non-matching
checksum and far in the future. -/
theorem C10_plain_set_skips_validation_witness :
    (Cache.getWithValidation
        (Cache.setOp (Cache.newSmartCache 100) "k" (.raw 7) 1 0).1 "k"
        "deadbeef" 1000000000).2 = some 7 :=
  C10_plain_set_skips_validation (Cache.newSmartCache 100) "k" 7 1 0
    "deadbeef" 1000000000 (by decide)

theorem lookupA_cons {β : Type} (k' k : String) (v : β) (tl : List (String × β)) :
    Cache.lookupA ((k', v) :: tl) k =
      if k' = k then some v else Cache.lookupA tl k := by
  unfold Cache.lookupA
  by_cases h : k' = k
  · simp [List.find?, h]
  · simp [List.find?, h]

theorem keyN_inj {i j : Nat} (h : Cache.keyN i = Cache.keyN j) : i = j := by
  unfold Cache.keyN at h
  have h2 : List.replicate (i + 1) 'a' = List.replicate (j + 1) 'a' :=
    congrArg String.data h
  have h3 := congrArg List.length h2
  simp at h3
  exact h3

theorem lookupA_map_keyN_none {β : Type} (f : Nat → β) (m : Nat) (l : List Nat)
    (hm : m ∉ l) :
    Cache.lookupA (l.map (fun i => (Cache.keyN i, f i))) (Cache.keyN m) = none := by
  induction l with
  | nil => rfl
  | cons j tl ih =>
    have hj : ¬ (Cache.keyN j = Cache.keyN m) := fun he => hm (by simp [keyN_inj he])
    have htl : m ∉ tl := fun ht => hm (List.mem_cons_of_mem _ ht)
    rw [List.map_cons, lookupA_cons, if_neg hj]
    exact ih htl

theorem lookupA_map_keyN_some {β : Type} (e : β) (m : Nat) (l : List Nat)
    (hm : m ∈ l) :
    Cache.lookupA (l.map (fun i => (Cache.keyN i, e))) (Cache.keyN m) = some e := by
  induction l with
  | nil => exact absurd hm (List.not_mem_nil m)
  | cons j tl ih =>
    rw [List.map_cons, lookupA_cons]
    by_cases h : Cache.keyN j = Cache.keyN m
    · rw [if_pos h]
    · rw [if_neg h]
      have : m ∈ tl := by
        rcases List.mem_cons.mp hm with h1 | h1
        · exact absurd (congrArg Cache.keyN h1.symm) h
        · exact h1
      exact ih this

theorem setRun_closed_form (n : Nat) (hn : n ≤ 100000) :
    (Cache.setRun n).currentMem = (n : Int) ∧
    (Cache.setRun n).maxMemory = 104857600 ∧
    (Cache.setRun n).hotData =
      ((List.range n).reverse).map
        (fun i => (Cache.keyN i,
          ({ accessCount := 1, lastAccess := 0, ttl := 300, size := 1 } :
            Cache.HotEntry))) ∧
    (Cache.setRun n).lru =
      ((((List.range n).reverse).take 1000).map
        (fun i => (Cache.keyN i, Cache.CVal.raw 0))) := by
  induction n with
  | zero => exact ⟨rfl, rfl, rfl, rfl⟩
  | succ m ih =>
    obtain ⟨ih1, ih2, ih3, ih4⟩ := ih (le_trans (Nat.le_succ m) hn)
    have hsr : Cache.setRun (m + 1) =
        (Cache.setOp (Cache.setRun m) (Cache.keyN m) (.raw 0) 1 0).1 := by
      unfold Cache.setRun
      rw [List.range_succ, List.foldl_append]
      rfl
    set st := Cache.setRun m with hst
    have hmN : m ≤ 100000 := by omega
    have hmZ : (m : Int) ≤ 100000 := by exact_mod_cast hmN
    have hmem : ¬ st.maxMemory < st.currentMem + 1 := by
      rw [ih1, ih2]
      omega
    have hmnotin : m ∉ ((List.range m).reverse).take 1000 :=
      fun hc => absurd (List.mem_reverse.mp (List.mem_of_mem_take hc))
        (by simp [List.mem_range])
    have hlk : Cache.lookupA st.lru (Cache.keyN m) = none := by
      rw [ih4]
      exact lookupA_map_keyN_none _ m _ hmnotin
    have hlkh : Cache.lookupA st.hotData (Cache.keyN m) = none := by
      rw [ih3]
      exact lookupA_map_keyN_none _ m _
        (fun hc => absurd (List.mem_reverse.mp hc) (by simp [List.mem_range]))
    have hfind : st.lru.find? (fun p => p.1 = Cache.keyN m) = none := by
      rcases hf : st.lru.find? (fun p => p.1 = Cache.keyN m) with _ | p
      · exact hf
      · exfalso
        unfold Cache.lookupA at hlk
        rw [hf] at hlk
        simp at hlk
    have herase : st.lru.eraseP (fun p => p.1 = Cache.keyN m) = st.lru :=
      List.eraseP_of_forall_not (List.find?_eq_none.mp hfind)
    have hset : (Cache.setOp st (Cache.keyN m) (.raw 0) 1 0).1 =
        { st with
          lru := Cache.lruAdd st.lru (Cache.keyN m) (.raw 0),
          currentMem := st.currentMem + 1,
          hotData := Cache.upsertA st.hotData (Cache.keyN m)
            { accessCount := 1, lastAccess := 0, ttl := 300, size := 1 } } := by
      simp [Cache.setOp, hmem, hlk]
    have hrev : (List.range (m + 1)).reverse = m :: (List.range m).reverse := by
      rw [List.range_succ, List.reverse_append]
      rfl
    have hXlen : ((List.range m).reverse).length = m := by simp
    rw [hsr, hset]
    refine ⟨?_, ?_, ?_, ?_⟩
    · show st.currentMem + 1 = ((m + 1 : Nat) : Int)
      rw [ih1]
      push_cast
      ring
    · exact ih2
    · show Cache.upsertA st.hotData (Cache.keyN m) _ = _
      unfold Cache.upsertA
      rw [hlkh]
      simp only [Option.isSome_none, Bool.false_eq_true, if_false]
      rw [ih3, hrev, List.map_cons]
    · show Cache.lruAdd st.lru (Cache.keyN m) (.raw 0) = _
      unfold Cache.lruAdd
      rw [herase, ih4, hrev]
      dsimp only
      rw [show ((m :: (List.range m).reverse).take 1000) =
            m :: ((List.range m).reverse).take 999 from rfl,
          List.map_cons]
      by_cases hm1000 : m < 1000
      · rw [if_neg (by
          simp only [List.length_cons, List.length_map, List.length_take, hXlen]
          omega)]
        rw [List.take_of_length_le (by rw [hXlen]; omega),
            List.take_of_length_le (by rw [hXlen]; omega)]
      · rw [if_pos (by
          simp only [List.length_cons, List.length_map, List.length_take, hXlen]
          omega)]
        rw [List.dropLast_eq_take]
        simp only [List.length_cons, List.length_map, List.length_take, hXlen]
        rw [show min 1000 m = 1000 by omega]
        rw [show (1000 + 1 - 1 : ℕ) = 999 + 1 from rfl]
        rw [show ∀ (x : String × Cache.CVal) (T : List (String × Cache.CVal)),
              (x :: T).take (999 + 1) = x :: T.take 999 from fun x T => rfl]
        rw [← List.map_take, List.take_take]
        rw [show min 999 1000 = 999 by omega]

theorem hotSizeOf_eq_of_lookup (st : Cache.SmartCache) (k : String)
    (e : Cache.HotEntry) (h : Cache.lookupA st.hotData k = some e) :
    Cache.hotSizeOf st k = e.size := by
  unfold Cache.hotSizeOf
  rw [h]

theorem liveSum_aux (st : Cache.SmartCache) (idxs : List Nat) (a : Int)
    (h : ∀ i ∈ idxs, Cache.hotSizeOf st (Cache.keyN i) = 1) :
    (idxs.map (fun i => (Cache.keyN i, Cache.CVal.raw 0))).foldl
        (fun a p => a + Cache.hotSizeOf st p.1) a = a + idxs.length := by
  induction idxs generalizing a with
  | nil => simp
  | cons j tl ih =>
    simp only [List.map_cons, List.foldl_cons]
    rw [h j (by simp)]
    rw [ih (a + 1) (fun i hi => h i (by simp [hi]))]
    simp only [List.length_cons]
    push_cast
    ring

theorem liveSizeSum_eq (st : Cache.SmartCache) :
    Cache.liveSizeSum st =
      st.lru.foldl (fun a p => a + Cache.hotSizeOf st p.1) 0 := rfl

theorem getMemoryUsage_eq (st : Cache.SmartCache) :
    Cache.getMemoryUsage st = (st.currentMem, st.maxMemory) := rfl

/-- C1: at the failing input — 1001 `Set` calls with distinct keys, each of
size 1 byte, into the server's 100 MB cache — `GetMemoryUsage` reports
1001 bytes used, but the LRU store (fixed capacity 1000, eviction callback
a no-op) holds only 1000 live entries whose sizes sum to 1000, so the
claimed equality between tracked memory and the sum over live entries
fails (while the `max_memory` bound itself still holds: 1001 ≤ 100 MB,
witnessed by the first conjunct's pair). -/
theorem C1_memory_accounting_leak :
    Cache.getMemoryUsage (Cache.setRun 1001) = (1001, 104857600) ∧
    Cache.liveSizeSum (Cache.setRun 1001) = 1000 ∧
    (Cache.setRun 1001).lru.length = 1000 ∧
    (1001 : Int) ≠ 1000 := by
  obtain ⟨h1, h2, h3, h4⟩ := setRun_closed_form 1001 (by omega)
  refine ⟨?_, ?_, ?_, by decide⟩
  · rw [getMemoryUsage_eq, h1, h2]
    norm_num
  · rw [liveSizeSum_eq, h4]
    have hall : ∀ i ∈ ((List.range 1001).reverse).take 1000,
        Cache.hotSizeOf (Cache.setRun 1001) (Cache.keyN i) = 1 := by
      intro i hi
      exact hotSizeOf_eq_of_lookup _ _ _
        (by rw [h3]; exact lookupA_map_keyN_some _ i _ (List.mem_of_mem_take hi))
    rw [liveSum_aux _ _ _ hall]
    simp
  · rw [h4]
    simp

theorem lookupA_append_left {β : Type} (l1 l2 : List (String × β)) (k : String)
    (h : (Cache.lookupA l1 k).isSome) :
    Cache.lookupA (l1 ++ l2) k = Cache.lookupA l1 k := by
  induction l1 with
  | nil => simp [Cache.lookupA] at h
  | cons p tl ih =>
    obtain ⟨k', v⟩ := p
    rw [List.cons_append, lookupA_cons, lookupA_cons]
    by_cases hk : k' = k
    · rw [if_pos hk, if_pos hk]
    · rw [if_neg hk, if_neg hk]
      rw [lookupA_cons, if_neg hk] at h
      exact ih h

theorem lookupA_append_self {β : Type} (l : List (String × β)) (k : String)
    (v : β) : (Cache.lookupA (l ++ [(k, v)]) k).isSome := by
  induction l with
  | nil => simp [Cache.lookupA, List.find?]
  | cons p tl ih =>
    obtain ⟨k', w⟩ := p
    rw [List.cons_append, lookupA_cons]
    by_cases hk : k' = k
    · rw [if_pos hk]; simp
    · rw [if_neg hk]; exact ih

theorem lookupA_upsert_self {β : Type} (l : List (String × β)) (k : String)
    (v : β) : Cache.lookupA (Cache.upsertA l k v) k = some v := by
  unfold Cache.upsertA
  split
  · rename_i h
    induction l with
    | nil => simp [Cache.lookupA] at h
    | cons p tl ih =>
      obtain ⟨k', w⟩ := p
      rw [List.map_cons]
      by_cases hk : k' = k
      · rw [if_pos hk, lookupA_cons, if_pos rfl]
      · rw [if_neg hk, lookupA_cons, if_neg hk]
        rw [lookupA_cons, if_neg hk] at h
        exact ih h
  · rw [lookupA_cons, if_pos rfl]

theorem lookupA_upsert_ne {β : Type} (l : List (String × β)) (k' k : String)
    (v : β) (h : k' ≠ k) :
    Cache.lookupA (Cache.upsertA l k' v) k = Cache.lookupA l k := by
  unfold Cache.upsertA
  split
  · rename_i hs
    clear hs
    induction l with
    | nil => rfl
    | cons p tl ih =>
      obtain ⟨a, b⟩ := p
      rw [List.map_cons]
      by_cases ha : a = k'
      · rw [if_pos ha, lookupA_cons, lookupA_cons, if_neg h,
          if_neg (by rw [ha]; exact h)]
        exact ih
      · rw [if_neg ha, lookupA_cons, lookupA_cons]
        by_cases hak : a = k
        · rw [if_pos hak, if_pos hak]
        · rw [if_neg hak, if_neg hak]
          exact ih
  · rw [lookupA_cons, if_neg h]

theorem lookupA_upsert_isSome {β : Type} (l : List (String × β)) (k' k : String)
    (v : β) (h : (Cache.lookupA l k).isSome) :
    (Cache.lookupA (Cache.upsertA l k' v) k).isSome := by
  by_cases hk : k' = k
  · subst hk
    rw [lookupA_upsert_self]
    simp
  · rw [lookupA_upsert_ne _ _ _ _ hk]
    exact h

theorem lookupA_addMarkers_truncated (res : List (String × Comp.Value))
    (n : Nat) :
    Cache.lookupA (Comp.addMarkers res n) "_truncated" =
      some (.bool true) := by
  unfold Comp.addMarkers
  rw [lookupA_upsert_ne _ _ _ _ (by decide), lookupA_upsert_ne _ _ _ _ (by decide),
    lookupA_upsert_self]

theorem prioGo_append (c : Comp.Value → Nat) (data : List (String × Comp.Value))
    (target : Int) (l1 l2 : List String) :
    ∀ acc, Comp.prioGo c data target (l1 ++ l2) acc =
      Comp.prioGo c data target l2 (Comp.prioGo c data target l1 acc) := by
  induction l1 with
  | nil => intro acc; rfl
  | cons f tl ih =>
    intro acc
    rw [List.cons_append]
    show Comp.prioGo c data target (f :: (tl ++ l2)) acc = _
    rw [Comp.prioGo]
    rw [Comp.prioGo]
    cases h : Cache.lookupA data f with
    | none => exact ih acc
    | some v =>
      dsimp only
      split_ifs with hfit
      · exact ih _
      · exact ih acc

theorem prioGo_preserves (c : Comp.Value → Nat)
    (data : List (String × Comp.Value)) (target : Int) (k : String) :
    ∀ (pf : List String) (acc : List (String × Comp.Value) × Int),
      (Cache.lookupA acc.1 k).isSome →
      (Cache.lookupA (Comp.prioGo c data target pf acc).1 k).isSome := by
  intro pf
  induction pf with
  | nil => intro acc h; exact h
  | cons f tl ih =>
    intro acc h
    rw [Comp.prioGo]
    cases hf : Cache.lookupA data f with
    | none => exact ih acc h
    | some v =>
      dsimp only
      split_ifs with hfit
      · refine ih _ ?_
        show (Cache.lookupA (acc.1 ++ [(f, v)]) k).isSome
        rw [lookupA_append_left _ _ _ h]
        exact h
      · exact ih acc h

theorem prioGo_acc_bound (c : Comp.Value → Nat)
    (data : List (String × Comp.Value)) (target : Int) :
    ∀ (pf : List String) (acc : List (String × Comp.Value) × Int),
      0 ≤ acc.2 → acc.2 ≤ max target 0 →
      0 ≤ (Comp.prioGo c data target pf acc).2 ∧
      (Comp.prioGo c data target pf acc).2 ≤ max target 0 := by
  intro pf
  induction pf with
  | nil => intro acc h0 h1; exact ⟨h0, h1⟩
  | cons f tl ih =>
    intro acc h0 h1
    rw [Comp.prioGo]
    cases hf : Cache.lookupA data f with
    | none => exact ih acc h0 h1
    | some v =>
      dsimp only
      split_ifs with hfit
      · refine ih _ ?_ ?_
        · have : (0 : Int) ≤ (c v : Int) := Int.ofNat_nonneg _
          simp only []
          omega
        · simp only []
          have : acc.2 + (c v : Int) ≤ target := hfit
          have h2 : target ≤ max target 0 := le_max_left _ _
          omega
      · exact ih acc h0 h1

theorem truncMapRest_preserves (c : Comp.Value → Nat) (cs : String → Nat)
    (target : Int) (k : String) :
    ∀ (fields : List (String × Comp.Value)) (res : List (String × Comp.Value))
      (cur : Int), (Cache.lookupA res k).isSome →
      (Cache.lookupA (Comp.truncMapRest c cs fields res cur target).1 k).isSome := by
  intro fields
  induction fields with
  | nil => intro res cur h; exact h
  | cons p tl ih =>
    intro res cur h
    obtain ⟨k', v⟩ := p
    rw [Comp.truncMapRest]
    dsimp only
    split_ifs with h1 h2 h3
    · exact ih res cur h
    · refine ih _ _ ?_
      show (Cache.lookupA (res ++ [(k', v)]) k).isSome
      rw [lookupA_append_left _ _ _ h]
      exact h
    · show (Cache.lookupA (res ++ [(k', _)]) k).isSome
      rw [lookupA_append_left _ _ _ h]
      exact h
    · exact h

theorem truncMapRest_acc_bound (c : Comp.Value → Nat) (cs : String → Nat)
    (target : Int) :
    ∀ (fields : List (String × Comp.Value)) (res : List (String × Comp.Value))
      (cur : Int), 0 ≤ cur → cur ≤ max target 0 →
      (Comp.truncMapRest c cs fields res cur target).2.1 ≤
        max target 0 + (Comp.truncMapRest c cs fields res cur target).2.2 := by
  intro fields
  induction fields with
  | nil =>
    intro res cur h0 h1
    show cur ≤ max target 0 + 0
    omega
  | cons p tl ih =>
    intro res cur h0 h1
    obtain ⟨k', v⟩ := p
    rw [Comp.truncMapRest]
    dsimp only
    split_ifs with hskip hfit hpos
    · exact ih res cur h0 h1
    · refine ih _ _ ?_ ?_
      · have hnn : (0 : Int) ≤ (c v : Int) := Int.ofNat_nonneg _
        omega
      · have hmax : target ≤ max target 0 := le_max_left _ _
        have hle : cur + (c v : Int) ≤ target := hfit
        omega
    · dsimp only
      omega
    · dsimp only
      omega

/-- C4 counterexample: the claimed budget bound fails because the three
truncation markers are appended without being counted: for any tokenizer
(every value marshals to nonempty JSON, hence counts at least one token)
the empty mapping truncated to budget 0 still carries the markers and
counts at least one token. -/
theorem C4_counterexample : ¬ Comp.claimTruncateBound := by
  intro h
  have hb := (h (fun _ => 1) (fun _ => 1) (fun _ => Nat.one_pos) [] 0).1
  norm_num at hb

/-- C4 amended: `truncateMap` keeps every priority-list key whose value fits
the budget remaining when the priority loop reaches it; the code's token
accounting over the included fields stays within `max B 0` except for the
single recursively truncated boundary field, whose charged count is the
only possible excess; and the three truncation markers (here witnessed by
`_truncated = true`) are always added after the accounting, uncounted —
which is why the result's total token count can exceed the budget. -/
theorem C4_truncate_properties (c : Comp.Value → Nat) (cs : String → Nat)
    (data : List (String × Comp.Value)) (target : Int) :
    Comp.priorityHolds c cs data target ∧
    Comp.truncateMapAcc c cs data target ≤
      max target 0 + Comp.truncateMapBoundary c cs data target ∧
    Cache.lookupA (Comp.truncateMap c cs data target) "_truncated" =
      some (.bool true) := by
  refine ⟨?_, ?_, ?_⟩
  · intro pf1 f pf2 v hpf hlook hfit
    unfold Comp.prioPassOn at hfit
    have hpr : (Cache.lookupA (Comp.prioPass c data target).1 f).isSome := by
      unfold Comp.prioPass Comp.prioPassOn
      rw [hpf, prioGo_append]
      rw [Comp.prioGo, hlook]
      dsimp only
      rw [if_pos hfit]
      apply prioGo_preserves
      exact lookupA_append_self _ _ _
    unfold Comp.truncateMap Comp.addMarkers
    dsimp only
    apply lookupA_upsert_isSome
    apply lookupA_upsert_isSome
    apply lookupA_upsert_isSome
    exact truncMapRest_preserves c cs target f data _ _ hpr
  · unfold Comp.truncateMapAcc Comp.truncateMapBoundary
    dsimp only
    apply truncMapRest_acc_bound
    · exact le_rfl.trans
        (prioGo_acc_bound c data target Comp.priorityFields ([], 0) le_rfl
          (le_max_right _ _)).1
    · exact (prioGo_acc_bound c data target Comp.priorityFields ([], 0) le_rfl
        (le_max_right _ _)).2
  · unfold Comp.truncateMap
    dsimp only
    exact lookupA_addMarkers_truncated _ _

/-- C4 witness for `C4_truncate_properties` on the one-field map
`[("metadata", null)]` with budget 10 and the constant-1 tokenizer. -/
theorem C4_truncate_properties_witness :
    (Cache.lookupA (Comp.truncateMap (fun _ => 1) (fun _ => 1)
        [("metadata", Comp.Value.null)] 10) "metadata").isSome ∧
    Comp.truncateMapAcc (fun _ => 1) (fun _ => 1)
        [("metadata", Comp.Value.null)] 10 ≤
      max 10 0 + Comp.truncateMapBoundary (fun _ => 1) (fun _ => 1)
        [("metadata", Comp.Value.null)] 10 ∧
    Cache.lookupA (Comp.truncateMap (fun _ => 1) (fun _ => 1)
        [("metadata", Comp.Value.null)] 10) "_truncated" =
      some (.bool true) := by
  obtain ⟨h1, h2, h3⟩ := C4_truncate_properties (fun _ => 1) (fun _ => 1)
    [("metadata", Comp.Value.null)] 10
  refine ⟨?_, h2, h3⟩
  exact h1 [] "metadata" ["summary", "index", "pagination"] .null rfl rfl
    (by norm_num [Comp.prioPassOn, Comp.prioGo])

theorem foldl_inv {α β : Type} (step : β → α → β) (P : β → Prop)
    (h : ∀ b a, P b → P (step b a)) :
    ∀ (l : List α) (b : β), P b → P (List.foldl step b l) := by
  intro l
  induction l with
  | nil => intro b hb; exact hb
  | cons a tl ih => intro b hb; exact ih (step b a) (h b a hb)

theorem foldl_estab {α β : Type} (step : β → α → β) (P Q : β → Prop) (x : α)
    (hQ : ∀ b a, Q b → Q (step b a))
    (hP : ∀ b a, P b → P (step b a))
    (hx : ∀ b, Q b → P (step b x)) :
    ∀ (l : List α) (b : β), x ∈ l → Q b → P (List.foldl step b l) := by
  intro l
  induction l with
  | nil => intro b hxl; exact absurd hxl (List.not_mem_nil x)
  | cons a tl ih =>
    intro b hxl hQb
    rcases List.mem_cons.mp hxl with he | hmem
    · subst he
      exact foldl_inv step P hP tl _ (hx b hQb)
    · exact ih (step b a) hmem (hQ b a hQb)

theorem postingHas_append (inv : List (String × List IndexEngine.Location))
    (t t' : String) (loc loc' : IndexEngine.Location)
    (h : IndexEngine.postingHas inv t loc) :
    IndexEngine.postingHas (IndexEngine.appendPosting inv t' loc') t loc := by
  obtain ⟨locs, hl, hm⟩ := h
  unfold IndexEngine.appendPosting
  by_cases he : t' = t
  · subst he
    rw [hl]
    exact ⟨locs ++ [loc'], lookupA_upsert_self _ _ _,
      List.mem_append_left _ hm⟩
  · cases hc : Cache.lookupA inv t' with
    | some locs' =>
      exact ⟨locs, by rw [lookupA_upsert_ne _ _ _ _ he]; exact hl, hm⟩
    | none =>
      refine ⟨locs, ?_, hm⟩
      rw [lookupA_cons, if_neg he]
      exact hl

theorem postingHas_append_self (inv : List (String × List IndexEngine.Location))
    (t : String) (loc : IndexEngine.Location) :
    IndexEngine.postingHas (IndexEngine.appendPosting inv t loc) t loc := by
  unfold IndexEngine.appendPosting
  cases hc : Cache.lookupA inv t with
  | some locs =>
    exact ⟨locs ++ [loc], lookupA_upsert_self _ _ _,
      List.mem_append_right _ (by simp)⟩
  | none =>
    exact ⟨[loc], by rw [lookupA_cons, if_pos rfl], by simp⟩

theorem addToInverted_mono (m : IndexEngine.Manager) (text : String)
    (loc' : IndexEngine.Location) (t : String) (loc : IndexEngine.Location)
    (h : IndexEngine.postingHas m.inverted t loc) :
    IndexEngine.postingHas (IndexEngine.addToInverted m text loc').inverted t loc := by
  unfold IndexEngine.addToInverted
  dsimp only
  exact foldl_inv _ (fun inv => IndexEngine.postingHas inv t loc)
    (fun inv tk hh => postingHas_append inv t tk loc loc' hh) _ _ h

theorem addToInverted_self (m : IndexEngine.Manager) (text : String)
    (loc : IndexEngine.Location) (t : String) (ht : t ∈ IndexEngine.tokenizeText text) :
    IndexEngine.postingHas (IndexEngine.addToInverted m text loc).inverted t loc := by
  unfold IndexEngine.addToInverted
  dsimp only
  exact foldl_estab _ (fun inv => IndexEngine.postingHas inv t loc)
    (fun _ => True) t (fun _ _ _ => trivial)
    (fun inv tk hh => postingHas_append inv t tk loc loc hh)
    (fun inv _ => postingHas_append_self inv t loc)
    (IndexEngine.tokenizeText text) m.inverted ht trivial

theorem rectContains_iff (r : IndexEngine.Rect) (x y : ℚ) :
    IndexEngine.rectContains r x y = true ↔
      (r.x ≤ x ∧ x < r.x + r.w ∧ r.y ≤ y ∧ y < r.y + r.h) := by
  simp [IndexEngine.rectContains]

theorem rectIntersects_iff (a b : IndexEngine.Rect) :
    IndexEngine.rectIntersects a b = true ↔
      ¬(a.x + a.w ≤ b.x ∨ b.x + b.w ≤ a.x ∨ a.y + a.h ≤ b.y ∨
        b.y + b.h ≤ a.y) := by
  simp [IndexEngine.rectIntersects]

theorem intersects_of_common (a b : IndexEngine.Rect) (x y : ℚ)
    (ha : IndexEngine.rectContains a x y = true)
    (hb : IndexEngine.rectContains b x y = true) :
    IndexEngine.rectIntersects a b = true := by
  rw [rectContains_iff] at ha hb
  rw [rectIntersects_iff]
  obtain ⟨ha1, ha2, ha3, ha4⟩ := ha
  obtain ⟨hb1, hb2, hb3, hb4⟩ := hb
  rintro (h | h | h | h) <;> linarith

theorem quadCover (b : IndexEngine.Rect) (x y : ℚ)
    (h : IndexEngine.rectContains b x y = true) :
    IndexEngine.rectContains (IndexEngine.quad0 b) x y = true ∨
    IndexEngine.rectContains (IndexEngine.quad1 b) x y = true ∨
    IndexEngine.rectContains (IndexEngine.quad2 b) x y = true ∨
    IndexEngine.rectContains (IndexEngine.quad3 b) x y = true := by
  rw [rectContains_iff] at h
  obtain ⟨h1, h2, h3, h4⟩ := h
  by_cases hx : x < b.x + b.w / 2 <;> by_cases hy : y < b.y + b.h / 2
  · refine Or.inl ?_
    rw [rectContains_iff]
    unfold IndexEngine.quad0
    refine ⟨h1, by linarith, h3, by linarith⟩
  · refine Or.inr (Or.inr (Or.inl ?_))
    rw [rectContains_iff]
    unfold IndexEngine.quad2
    dsimp only
    refine ⟨h1, by linarith, by linarith, by linarith⟩
  · refine Or.inr (Or.inl ?_)
    rw [rectContains_iff]
    unfold IndexEngine.quad1
    dsimp only
    refine ⟨by linarith, by linarith, h3, by linarith⟩
  · refine Or.inr (Or.inr (Or.inr ?_))
    rw [rectContains_iff]
    unfold IndexEngine.quad3
    dsimp only
    refine ⟨by linarith, by linarith, by linarith, by linarith⟩

theorem qtInsert_bounds (qt : IndexEngine.QuadTree) (p : IndexEngine.SpatialPoint) :
    (IndexEngine.qtInsert qt p).bounds = qt.bounds := by
  cases qt with
  | leaf b pts cap =>
    rw [IndexEngine.qtInsert]
    split_ifs <;> rfl
  | node b pts cap c0 c1 c2 c3 =>
    rw [IndexEngine.qtInsert]
    split_ifs <;> rfl

theorem leafIns_wf (b : IndexEngine.Rect) (cap : Nat) (p : IndexEngine.SpatialPoint)
    (hc : 0 < cap) : IndexEngine.qtWF (IndexEngine.leafIns b cap p) := by
  unfold IndexEngine.leafIns
  split_ifs <;> exact hc

theorem leafIns_bounds (b : IndexEngine.Rect) (cap : Nat)
    (p : IndexEngine.SpatialPoint) : (IndexEngine.leafIns b cap p).bounds = b := by
  unfold IndexEngine.leafIns
  split_ifs <;> rfl

theorem qtInsert_wf (p : IndexEngine.SpatialPoint) :
    ∀ qt : IndexEngine.QuadTree, IndexEngine.qtWF qt →
      IndexEngine.qtWF (IndexEngine.qtInsert qt p) := by
  intro qt
  induction qt with
  | leaf b pts cap =>
    intro hwf
    rw [IndexEngine.qtInsert]
    split_ifs with h1 h2
    · exact hwf
    · exact ⟨hwf, leafIns_bounds _ _ _, leafIns_bounds _ _ _,
        leafIns_bounds _ _ _, leafIns_bounds _ _ _,
        leafIns_wf _ _ _ hwf, leafIns_wf _ _ _ hwf,
        leafIns_wf _ _ _ hwf, leafIns_wf _ _ _ hwf⟩
    · exact hwf
  | node b pts cap c0 c1 c2 c3 ih0 ih1 ih2 ih3 =>
    intro hwf
    obtain ⟨hc, hb0, hb1, hb2, hb3, hw0, hw1, hw2, hw3⟩ := hwf
    rw [IndexEngine.qtInsert]
    split_ifs with h1
    · exact ⟨hc, (qtInsert_bounds c0 p).trans hb0,
        (qtInsert_bounds c1 p).trans hb1,
        (qtInsert_bounds c2 p).trans hb2,
        (qtInsert_bounds c3 p).trans hb3,
        ih0 hw0, ih1 hw1, ih2 hw2, ih3 hw3⟩
    · exact ⟨hc, hb0, hb1, hb2, hb3, hw0, hw1, hw2, hw3⟩

theorem qtQuery_insert_preserved (rect : IndexEngine.Rect)
    (q p : IndexEngine.SpatialPoint) :
    ∀ qt : IndexEngine.QuadTree, q ∈ IndexEngine.qtQuery qt rect →
      q ∈ IndexEngine.qtQuery (IndexEngine.qtInsert qt p) rect := by
  intro qt
  induction qt with
  | leaf b pts cap =>
    intro hq
    rw [IndexEngine.qtInsert]
    split_ifs with h1 h2
    · simp only [IndexEngine.qtQuery] at hq ⊢
      split_ifs at hq ⊢ with h3
      · rw [List.filter_append]
        exact List.mem_append_left _ hq
      · exact absurd hq (List.not_mem_nil q)
    · simp only [IndexEngine.qtQuery] at hq ⊢
      split_ifs at hq ⊢ with h3
      · exact List.mem_append_left _ (List.mem_append_left _
          (List.mem_append_left _ (List.mem_append_left _ hq)))
      · exact absurd hq (List.not_mem_nil q)
    · exact hq
  | node b pts cap c0 c1 c2 c3 ih0 ih1 ih2 ih3 =>
    intro hq
    rw [IndexEngine.qtInsert]
    split_ifs with h1
    · simp only [IndexEngine.qtQuery] at hq ⊢
      split_ifs at hq ⊢ with h2
      · simp only [List.mem_append] at hq ⊢
        rcases hq with ((((h | h) | h) | h) | h)
        · exact Or.inl (Or.inl (Or.inl (Or.inl h)))
        · exact Or.inl (Or.inl (Or.inl (Or.inr (ih0 h))))
        · exact Or.inl (Or.inl (Or.inr (ih1 h)))
        · exact Or.inl (Or.inr (ih2 h))
        · exact Or.inr (ih3 h)
      · exact absurd hq (List.not_mem_nil q)
    · exact hq

theorem qtQuery_insert_hit (rect : IndexEngine.Rect)
    (p : IndexEngine.SpatialPoint)
    (hrect : IndexEngine.rectContains rect p.x p.y = true) :
    ∀ qt : IndexEngine.QuadTree, IndexEngine.qtWF qt →
      IndexEngine.rectContains qt.bounds p.x p.y = true →
      p ∈ IndexEngine.qtQuery (IndexEngine.qtInsert qt p) rect := by
  intro qt
  induction qt with
  | leaf b pts cap =>
    intro hwf hcont
    have hcont' : IndexEngine.rectContains b p.x p.y = true := hcont
    have hinter : IndexEngine.rectIntersects b rect = true :=
      intersects_of_common b rect p.x p.y hcont' hrect
    rw [IndexEngine.qtInsert]
    split_ifs with h1
    · rw [IndexEngine.qtQuery, if_neg (not_not_intro hinter)]
      simp [hrect]
    · rw [IndexEngine.qtQuery, if_neg (not_not_intro hinter)]
      rcases quadCover b p.x p.y hcont' with hqc | hqc | hqc | hqc
      · have hmem : p ∈ IndexEngine.qtQuery
            (IndexEngine.leafIns (IndexEngine.quad0 b) cap p) rect := by
          rw [IndexEngine.leafIns, if_pos ⟨hqc, hwf⟩, IndexEngine.qtQuery,
            if_neg (not_not_intro
              (intersects_of_common _ rect p.x p.y hqc hrect))]
          simp [hrect]
        simp only [List.mem_append]
        exact Or.inl (Or.inl (Or.inl (Or.inr hmem)))
      · have hmem : p ∈ IndexEngine.qtQuery
            (IndexEngine.leafIns (IndexEngine.quad1 b) cap p) rect := by
          rw [IndexEngine.leafIns, if_pos ⟨hqc, hwf⟩, IndexEngine.qtQuery,
            if_neg (not_not_intro
              (intersects_of_common _ rect p.x p.y hqc hrect))]
          simp [hrect]
        simp only [List.mem_append]
        exact Or.inl (Or.inl (Or.inr hmem))
      · have hmem : p ∈ IndexEngine.qtQuery
            (IndexEngine.leafIns (IndexEngine.quad2 b) cap p) rect := by
          rw [IndexEngine.leafIns, if_pos ⟨hqc, hwf⟩, IndexEngine.qtQuery,
            if_neg (not_not_intro
              (intersects_of_common _ rect p.x p.y hqc hrect))]
          simp [hrect]
        simp only [List.mem_append]
        exact Or.inl (Or.inr hmem)
      · have hmem : p ∈ IndexEngine.qtQuery
            (IndexEngine.leafIns (IndexEngine.quad3 b) cap p) rect := by
          rw [IndexEngine.leafIns, if_pos ⟨hqc, hwf⟩, IndexEngine.qtQuery,
            if_neg (not_not_intro
              (intersects_of_common _ rect p.x p.y hqc hrect))]
          simp [hrect]
        simp only [List.mem_append]
        exact Or.inr hmem
  | node b pts cap c0 c1 c2 c3 ih0 ih1 ih2 ih3 =>
    intro hwf hcont
    obtain ⟨hc, hb0, hb1, hb2, hb3, hw0, hw1, hw2, hw3⟩ := hwf
    have hcont' : IndexEngine.rectContains b p.x p.y = true := hcont
    have hinter : IndexEngine.rectIntersects b rect = true :=
      intersects_of_common b rect p.x p.y hcont' hrect
    rw [IndexEngine.qtInsert]
    split_ifs with h1
    · rw [IndexEngine.qtQuery, if_neg (not_not_intro hinter)]
      simp only [List.mem_append]
      rcases quadCover b p.x p.y hcont' with hqc | hqc | hqc | hqc
      · exact Or.inl (Or.inl (Or.inl (Or.inr
          (ih0 hw0 (by rw [hb0]; exact hqc)))))
      · exact Or.inl (Or.inl (Or.inr (ih1 hw1 (by rw [hb1]; exact hqc))))
      · exact Or.inl (Or.inr (ih2 hw2 (by rw [hb2]; exact hqc)))
      · exact Or.inr (ih3 hw3 (by rw [hb3]; exact hqc))

theorem isText_true (w : String) (hw : w ≠ "") :
    IndexEngine.isText w = true := by
  simp [IndexEngine.isText, IndexEngine.isNumericString, IndexEngine.parseFloat, hw]

theorem indexCell_empty (m : IndexEngine.Manager) (s : String) (ri ci : Nat) :
    IndexEngine.indexCell m s ri ci "" = m := by
  unfold IndexEngine.indexCell
  rw [if_pos rfl]

theorem indexCell_eq (m : IndexEngine.Manager) (s : String) (ri ci : Nat)
    (w : String) (hw : w ≠ "") :
    IndexEngine.indexCell m s ri ci w =
      { IndexEngine.addToInverted m w (IndexEngine.cellLoc s ri ci) with
        spatial := IndexEngine.qtInsert m.spatial
          ⟨(ci : ℚ), (ri : ℚ), w, IndexEngine.cellLoc s ri ci⟩,
        bloom := w :: m.bloom } := by
  unfold IndexEngine.indexCell
  rw [if_neg hw]
  dsimp only
  rw [IndexEngine.parseNumberStr, IndexEngine.parseFloat]
  rw [if_pos (isText_true w hw)]
  rfl

theorem indexCell_primary (m : IndexEngine.Manager) (s : String) (ri ci : Nat)
    (w : String) : (IndexEngine.indexCell m s ri ci w).primary = m.primary := by
  by_cases hw : w = ""
  · subst hw; rw [indexCell_empty]
  · rw [indexCell_eq m s ri ci w hw]; rfl

theorem indexCell_bloom_mono (m : IndexEngine.Manager) (s : String)
    (ri ci : Nat) (w x : String) (h : x ∈ m.bloom) :
    x ∈ (IndexEngine.indexCell m s ri ci w).bloom := by
  by_cases hw : w = ""
  · subst hw; rw [indexCell_empty]; exact h
  · rw [indexCell_eq m s ri ci w hw]
    exact List.mem_cons_of_mem _ h

theorem indexCell_bloom_self (m : IndexEngine.Manager) (s : String)
    (ri ci : Nat) (w : String) (hw : w ≠ "") :
    w ∈ (IndexEngine.indexCell m s ri ci w).bloom := by
  rw [indexCell_eq m s ri ci w hw]
  exact List.mem_cons_self _ _

theorem indexCell_postings_mono (m : IndexEngine.Manager) (s : String)
    (ri ci : Nat) (w t : String) (loc : IndexEngine.Location)
    (h : IndexEngine.postingHas m.inverted t loc) :
    IndexEngine.postingHas (IndexEngine.indexCell m s ri ci w).inverted t loc := by
  by_cases hw : w = ""
  · subst hw; rw [indexCell_empty]; exact h
  · rw [indexCell_eq m s ri ci w hw]
    exact addToInverted_mono m w _ t loc h

theorem indexCell_postings_self (m : IndexEngine.Manager) (s : String)
    (ri ci : Nat) (w t : String) (hw : w ≠ "")
    (ht : t ∈ IndexEngine.tokenizeText w) :
    IndexEngine.postingHas (IndexEngine.indexCell m s ri ci w).inverted t
      (IndexEngine.cellLoc s ri ci) := by
  rw [indexCell_eq m s ri ci w hw]
  exact addToInverted_self m w _ t ht

theorem indexCell_spatial_bounds (m : IndexEngine.Manager) (s : String)
    (ri ci : Nat) (w : String) :
    (IndexEngine.indexCell m s ri ci w).spatial.bounds = m.spatial.bounds := by
  by_cases hw : w = ""
  · subst hw; rw [indexCell_empty]
  · rw [indexCell_eq m s ri ci w hw]
    exact qtInsert_bounds _ _

theorem indexCell_spatial_wf (m : IndexEngine.Manager) (s : String)
    (ri ci : Nat) (w : String) (h : IndexEngine.qtWF m.spatial) :
    IndexEngine.qtWF (IndexEngine.indexCell m s ri ci w).spatial := by
  by_cases hw : w = ""
  · subst hw; rw [indexCell_empty]; exact h
  · rw [indexCell_eq m s ri ci w hw]
    exact qtInsert_wf _ _ h

theorem indexCell_spatial_mono (m : IndexEngine.Manager) (s : String)
    (ri ci : Nat) (w : String) (rect : IndexEngine.Rect)
    (q : IndexEngine.SpatialPoint)
    (h : q ∈ IndexEngine.qtQuery m.spatial rect) :
    q ∈ IndexEngine.qtQuery (IndexEngine.indexCell m s ri ci w).spatial rect := by
  by_cases hw : w = ""
  · subst hw; rw [indexCell_empty]; exact h
  · rw [indexCell_eq m s ri ci w hw]
    exact qtQuery_insert_preserved rect q _ _ h

theorem indexCell_spatial_self (m : IndexEngine.Manager) (s : String)
    (ri ci : Nat) (w : String) (rect : IndexEngine.Rect) (hw : w ≠ "")
    (hwf : IndexEngine.qtWF m.spatial)
    (hin : IndexEngine.rectContains m.spatial.bounds (ci : ℚ) (ri : ℚ) = true)
    (hrect : IndexEngine.rectContains rect (ci : ℚ) (ri : ℚ) = true) :
    (⟨(ci : ℚ), (ri : ℚ), w, IndexEngine.cellLoc s ri ci⟩ :
        IndexEngine.SpatialPoint) ∈
      IndexEngine.qtQuery (IndexEngine.indexCell m s ri ci w).spatial rect := by
  rw [indexCell_eq m s ri ci w hw]
  exact qtQuery_insert_hit rect _ hrect m.spatial hwf hin

theorem textIndexed_cell (M : IndexEngine.Manager) (s : String) (ri ci : Nat)
    (w v : String) (loc : IndexEngine.Location)
    (h : IndexEngine.textIndexed M v loc) :
    IndexEngine.textIndexed (IndexEngine.indexCell M s ri ci w) v loc :=
  ⟨indexCell_bloom_mono M s ri ci w v h.1,
   fun t ht => indexCell_postings_mono M s ri ci w t loc (h.2 t ht)⟩

theorem textIndexed_row (cs : List (Nat × String)) (M : IndexEngine.Manager)
    (s : String) (ri : Nat) (v : String) (loc : IndexEngine.Location)
    (h : IndexEngine.textIndexed M v loc) :
    IndexEngine.textIndexed
      (cs.foldl (fun m y => IndexEngine.indexCell m s ri y.1 y.2) M) v loc :=
  foldl_inv _ (fun M => IndexEngine.textIndexed M v loc)
    (fun b a hb => textIndexed_cell b s ri a.1 a.2 v loc hb) cs M h

theorem textIndexed_sheet (M : IndexEngine.Manager) (s : String)
    (rows : List (List String)) (v : String) (loc : IndexEngine.Location)
    (h : IndexEngine.textIndexed M v loc) :
    IndexEngine.textIndexed (IndexEngine.indexSheet M s rows) v loc := by
  unfold IndexEngine.indexSheet
  exact foldl_inv _ (fun M => IndexEngine.textIndexed M v loc)
    (fun b a hb => textIndexed_row a.2.enum b s a.1 v loc hb) rows.enum M h

theorem textIndexed_row_estab (cs : List (Nat × String))
    (M : IndexEngine.Manager) (s : String) (ri ci : Nat) (v : String)
    (hv : v ≠ "") (hc : (ci, v) ∈ cs) :
    IndexEngine.textIndexed
      (cs.foldl (fun m y => IndexEngine.indexCell m s ri y.1 y.2) M) v
      (IndexEngine.cellLoc s ri ci) :=
  foldl_estab _ (fun M => IndexEngine.textIndexed M v (IndexEngine.cellLoc s ri ci))
    (fun _ => True) (ci, v) (fun _ _ _ => trivial)
    (fun b a hb => textIndexed_cell b s ri a.1 a.2 v _ hb)
    (fun b _ => ⟨indexCell_bloom_self b s ri ci v hv,
      fun t ht => indexCell_postings_self b s ri ci v t hv ht⟩)
    cs M hc trivial

theorem textIndexed_sheet_estab (M : IndexEngine.Manager) (s : String)
    (rows : List (List String)) (ri ci : Nat) (row : List String) (v : String)
    (hv : v ≠ "") (hrow : (ri, row) ∈ rows.enum) (hcell : (ci, v) ∈ row.enum) :
    IndexEngine.textIndexed (IndexEngine.indexSheet M s rows) v
      (IndexEngine.cellLoc s ri ci) := by
  unfold IndexEngine.indexSheet
  exact foldl_estab _
    (fun M => IndexEngine.textIndexed M v (IndexEngine.cellLoc s ri ci))
    (fun _ => True) (ri, row) (fun _ _ _ => trivial)
    (fun b a hb => textIndexed_row a.2.enum b s a.1 v _ hb)
    (fun b _ => textIndexed_row_estab row.enum b s ri ci v hv hcell)
    rows.enum M hrow trivial

theorem textIndexed_build (f : IndexEngine.XFile) (names : List String)
    (M0 : IndexEngine.Manager) (s : String) (ri ci : Nat) (row : List String)
    (v : String) (hv : v ≠ "") (hs : s ∈ names)
    (hrow : (ri, row) ∈ (IndexEngine.getRows f s).enum)
    (hcell : (ci, v) ∈ row.enum) :
    IndexEngine.textIndexed (IndexEngine.buildFromFile M0 f names) v
      (IndexEngine.cellLoc s ri ci) := by
  unfold IndexEngine.buildFromFile
  exact foldl_estab _
    (fun M => IndexEngine.textIndexed M v (IndexEngine.cellLoc s ri ci))
    (fun _ => True) s (fun _ _ _ => trivial)
    (fun b a hb => textIndexed_sheet b a (IndexEngine.getRows f a) v _ hb)
    (fun b _ => textIndexed_sheet_estab b s (IndexEngine.getRows f s) ri ci row v
      hv hrow hcell)
    names M0 hs trivial

theorem spatialWF_cell (M : IndexEngine.Manager) (s : String) (ri ci : Nat)
    (w : String) (h : IndexEngine.spatialWF M) :
    IndexEngine.spatialWF (IndexEngine.indexCell M s ri ci w) :=
  ⟨indexCell_spatial_wf M s ri ci w h.1,
   (indexCell_spatial_bounds M s ri ci w).trans h.2⟩

theorem spatialWF_row (cs : List (Nat × String)) (M : IndexEngine.Manager)
    (s : String) (ri : Nat) (h : IndexEngine.spatialWF M) :
    IndexEngine.spatialWF
      (cs.foldl (fun m y => IndexEngine.indexCell m s ri y.1 y.2) M) :=
  foldl_inv _ IndexEngine.spatialWF
    (fun b a hb => spatialWF_cell b s ri a.1 a.2 hb) cs M h

theorem spatialWF_sheet (M : IndexEngine.Manager) (s : String)
    (rows : List (List String)) (h : IndexEngine.spatialWF M) :
    IndexEngine.spatialWF (IndexEngine.indexSheet M s rows) := by
  unfold IndexEngine.indexSheet
  exact foldl_inv _ IndexEngine.spatialWF
    (fun b a hb => spatialWF_row a.2.enum b s a.1 hb) rows.enum M h

theorem spatialHit_row_mono (cs : List (Nat × String))
    (M : IndexEngine.Manager) (s : String) (ri : Nat)
    (rect : IndexEngine.Rect) (q : IndexEngine.SpatialPoint)
    (h : q ∈ IndexEngine.qtQuery M.spatial rect) :
    q ∈ IndexEngine.qtQuery
      (cs.foldl (fun m y => IndexEngine.indexCell m s ri y.1 y.2) M).spatial
      rect :=
  foldl_inv _ (fun M => q ∈ IndexEngine.qtQuery M.spatial rect)
    (fun b a hb => indexCell_spatial_mono b s ri a.1 a.2 rect q hb) cs M h

theorem spatialHit_sheet_mono (M : IndexEngine.Manager) (s : String)
    (rows : List (List String)) (rect : IndexEngine.Rect)
    (q : IndexEngine.SpatialPoint)
    (h : q ∈ IndexEngine.qtQuery M.spatial rect) :
    q ∈ IndexEngine.qtQuery (IndexEngine.indexSheet M s rows).spatial rect := by
  unfold IndexEngine.indexSheet
  exact foldl_inv _ (fun M => q ∈ IndexEngine.qtQuery M.spatial rect)
    (fun b a hb => spatialHit_row_mono a.2.enum b s a.1 rect q hb) rows.enum M h

theorem spatialHit_row_estab (cs : List (Nat × String))
    (M : IndexEngine.Manager) (s : String) (ri ci : Nat) (v : String)
    (rect : IndexEngine.Rect) (hv : v ≠ "") (hc : (ci, v) ∈ cs)
    (hQ : IndexEngine.spatialWF M)
    (hworld : IndexEngine.rectContains ⟨0, 0, 1000, 1000⟩ (ci : ℚ) (ri : ℚ) = true)
    (hrect : IndexEngine.rectContains rect (ci : ℚ) (ri : ℚ) = true) :
    (⟨(ci : ℚ), (ri : ℚ), v, IndexEngine.cellLoc s ri ci⟩ :
        IndexEngine.SpatialPoint) ∈
      IndexEngine.qtQuery
        (cs.foldl (fun m y => IndexEngine.indexCell m s ri y.1 y.2) M).spatial
        rect :=
  foldl_estab _
    (fun M => (⟨(ci : ℚ), (ri : ℚ), v, IndexEngine.cellLoc s ri ci⟩ :
        IndexEngine.SpatialPoint) ∈ IndexEngine.qtQuery M.spatial rect)
    IndexEngine.spatialWF (ci, v)
    (fun b a hb => spatialWF_cell b s ri a.1 a.2 hb)
    (fun b a hb => indexCell_spatial_mono b s ri a.1 a.2 rect _ hb)
    (fun b hb => indexCell_spatial_self b s ri ci v rect hv hb.1
      (by rw [hb.2]; exact hworld) hrect)
    cs M hc hQ

theorem spatialHit_sheet_estab (M : IndexEngine.Manager) (s : String)
    (rows : List (List String)) (ri ci : Nat) (row : List String) (v : String)
    (rect : IndexEngine.Rect) (hv : v ≠ "")
    (hrow : (ri, row) ∈ rows.enum) (hcell : (ci, v) ∈ row.enum)
    (hQ : IndexEngine.spatialWF M)
    (hworld : IndexEngine.rectContains ⟨0, 0, 1000, 1000⟩ (ci : ℚ) (ri : ℚ) = true)
    (hrect : IndexEngine.rectContains rect (ci : ℚ) (ri : ℚ) = true) :
    (⟨(ci : ℚ), (ri : ℚ), v, IndexEngine.cellLoc s ri ci⟩ :
        IndexEngine.SpatialPoint) ∈
      IndexEngine.qtQuery (IndexEngine.indexSheet M s rows).spatial rect := by
  unfold IndexEngine.indexSheet
  exact foldl_estab _
    (fun M => (⟨(ci : ℚ), (ri : ℚ), v, IndexEngine.cellLoc s ri ci⟩ :
        IndexEngine.SpatialPoint) ∈ IndexEngine.qtQuery M.spatial rect)
    IndexEngine.spatialWF (ri, row)
    (fun b a hb => spatialWF_row a.2.enum b s a.1 hb)
    (fun b a hb => spatialHit_row_mono a.2.enum b s a.1 rect _ hb)
    (fun b hb => spatialHit_row_estab row.enum b s ri ci v rect hv hcell hb
      hworld hrect)
    rows.enum M hrow hQ

theorem spatialHit_build (f : IndexEngine.XFile) (names : List String)
    (M0 : IndexEngine.Manager) (s : String) (ri ci : Nat) (row : List String)
    (v : String) (rect : IndexEngine.Rect) (hv : v ≠ "") (hs : s ∈ names)
    (hrow : (ri, row) ∈ (IndexEngine.getRows f s).enum)
    (hcell : (ci, v) ∈ row.enum) (hQ : IndexEngine.spatialWF M0)
    (hworld : IndexEngine.rectContains ⟨0, 0, 1000, 1000⟩ (ci : ℚ) (ri : ℚ) = true)
    (hrect : IndexEngine.rectContains rect (ci : ℚ) (ri : ℚ) = true) :
    (⟨(ci : ℚ), (ri : ℚ), v, IndexEngine.cellLoc s ri ci⟩ :
        IndexEngine.SpatialPoint) ∈
      IndexEngine.qtQuery (IndexEngine.buildFromFile M0 f names).spatial rect := by
  unfold IndexEngine.buildFromFile
  exact foldl_estab _
    (fun M => (⟨(ci : ℚ), (ri : ℚ), v, IndexEngine.cellLoc s ri ci⟩ :
        IndexEngine.SpatialPoint) ∈ IndexEngine.qtQuery M.spatial rect)
    IndexEngine.spatialWF s
    (fun b a hb => spatialWF_sheet b a (IndexEngine.getRows f a) hb)
    (fun b a hb => spatialHit_sheet_mono b a (IndexEngine.getRows f a) rect _ hb)
    (fun b hb => spatialHit_sheet_estab b s (IndexEngine.getRows f s) ri ci row v
      rect hv hrow hcell hb hworld hrect)
    names M0 hs hQ

theorem cellFold_primary (s : String) (ri : Nat) :
    ∀ (cs : List (Nat × String)) (M : IndexEngine.Manager),
      (cs.foldl (fun m y => IndexEngine.indexCell m s ri y.1 y.2) M).primary =
        M.primary := by
  intro cs
  induction cs with
  | nil => intro M; rfl
  | cons a tl ih =>
    intro M
    rw [List.foldl_cons, ih, indexCell_primary]

theorem sheetFold_primary (s : String) :
    ∀ (rs : List (Nat × List String)) (M : IndexEngine.Manager),
      (rs.foldl
        (fun m y => y.2.enum.foldl
          (fun m' z => IndexEngine.indexCell m' s y.1 z.1 z.2) m) M).primary =
        M.primary := by
  intro rs
  induction rs with
  | nil => intro M; rfl
  | cons a tl ih =>
    intro M
    rw [List.foldl_cons, ih, cellFold_primary]

theorem indexSheet_primary (M : IndexEngine.Manager) (s : String)
    (rows : List (List String)) :
    (IndexEngine.indexSheet M s rows).primary = M.primary := by
  unfold IndexEngine.indexSheet
  exact sheetFold_primary s rows.enum M

theorem buildFromFile_primary (f : IndexEngine.XFile) :
    ∀ (names : List String) (M : IndexEngine.Manager),
      (IndexEngine.buildFromFile M f names).primary = M.primary := by
  intro names
  induction names with
  | nil => intro M; rfl
  | cons a tl ih =>
    intro M
    unfold IndexEngine.buildFromFile at ih ⊢
    rw [List.foldl_cons, ih, indexSheet_primary]

theorem searchNumericRange_build (f : IndexEngine.XFile) (names : List String)
    (lo hi : ℚ) :
    IndexEngine.searchNumericRange
      (IndexEngine.buildFromFile IndexEngine.newManager f names) lo hi = [] := by
  unfold IndexEngine.searchNumericRange
  rw [buildFromFile_primary]
  rfl

theorem intersectAll_mem (inv : List (String × List IndexEngine.Location))
    (loc : IndexEngine.Location) :
    ∀ (ts : List String) (acc : List IndexEngine.Location), loc ∈ acc →
      (∀ t ∈ ts, IndexEngine.postingHas inv t loc) →
      loc ∈ IndexEngine.intersectAll inv ts acc := by
  intro ts
  induction ts with
  | nil =>
    intro acc hacc _
    rw [IndexEngine.intersectAll]
    exact hacc
  | cons t tl ih =>
    intro acc hacc hall
    rw [IndexEngine.intersectAll]
    obtain ⟨locs, hl, hm⟩ := hall t (List.mem_cons_self t tl)
    rw [hl]
    exact ih _
      (List.mem_filter.mpr ⟨hacc, decide_eq_true hm⟩)
      (fun t' ht' => hall t' (List.mem_cons_of_mem _ ht'))

theorem searchText_mem (m : IndexEngine.Manager) (v : String)
    (loc : IndexEngine.Location) (hb : v ∈ m.bloom)
    (hp : ∀ t ∈ IndexEngine.tokenizeText v,
      IndexEngine.postingHas m.inverted t loc)
    (hne : IndexEngine.tokenizeText v ≠ []) :
    loc ∈ IndexEngine.searchText m v := by
  unfold IndexEngine.searchText
  have hc : m.bloom.contains v = true := List.elem_eq_true_of_mem hb
  rw [if_neg (not_not_intro hc)]
  cases hts : IndexEngine.tokenizeText v with
  | nil => exact absurd hts hne
  | cons t0 ts =>
    obtain ⟨locs0, hl0, hm0⟩ := hp t0 (by rw [hts]; exact List.mem_cons_self t0 ts)
    dsimp only
    rw [hl0]
    exact intersectAll_mem m.inverted loc ts locs0 hm0
      (fun t ht => hp t (by rw [hts]; exact List.mem_cons_of_mem t0 ht))

theorem spatialWF_newManager : IndexEngine.spatialWF IndexEngine.newManager :=
  ⟨((by decide : (0:Nat) < 10) : IndexEngine.qtWF IndexEngine.newManager.spatial), rfl⟩

/-- C3 counterexample: the claimed retrieval property fails for the textual
cell value `"ab"`: the whole claim instantiated at a one-sheet workbook whose
only cell holds `"ab"` demands `searchText "ab"` to contain the cell's
location, but `tokenizeText` drops every word of at most two characters, so
the inverted index receives no posting and `SearchText` returns the empty
list. -/
theorem C3_counterexample : ¬ IndexEngine.claimIndexRetrieval := by
  intro h
  have h2 := (h ⟨[("S", [["ab"]])]⟩ ["S"] "S" 0 0 ["ab"] "ab"
    (by decide) (by decide) (by decide) (by decide)).1 (by decide)
  rw [show IndexEngine.searchText
      (IndexEngine.buildFromFile IndexEngine.newManager
        ⟨[("S", [["ab"]])]⟩ ["S"]) "ab" = [] from rfl] at h2
  exact absurd h2 (List.not_mem_nil _)

/-- C3 (amended): after `BuildFromFile` over the sheets `names`, a non-empty
cell `v` at 0-based row `ri` and column `ci` of sheet `s` is retrievable
exactly as the code stores it: `searchText v` finds its location whenever the
value has at least one token surviving `tokenizeText`; `searchSpatial` finds
it for every rectangle containing the 0-based point `(ci, ri)` (not the
1-based `(col, row)` of the stored location), provided that point lies in the
fixed `(0,0,1000,1000)` world; and the numeric store is unreachable — the
`parseFloat` stub never classifies a value as numeric, so every
`searchNumericRange` over the built index is empty. -/
theorem C3_index_retrieval (f : IndexEngine.XFile) (names : List String)
    (s : String) (ri ci : Nat) (row : List String) (v : String)
    (rect : IndexEngine.Rect) (hs : s ∈ names)
    (hrow : (ri, row) ∈ (IndexEngine.getRows f s).enum)
    (hcell : (ci, v) ∈ row.enum) (hv : v ≠ "")
    (hworld : IndexEngine.rectContains ⟨0, 0, 1000, 1000⟩ (ci : ℚ) (ri : ℚ) = true)
    (hrect : IndexEngine.rectContains rect (ci : ℚ) (ri : ℚ) = true) :
    (IndexEngine.tokenizeText v ≠ [] →
      IndexEngine.cellLoc s ri ci ∈
        IndexEngine.searchText
          (IndexEngine.buildFromFile IndexEngine.newManager f names) v) ∧
    IndexEngine.cellLoc s ri ci ∈
      IndexEngine.searchSpatial
        (IndexEngine.buildFromFile IndexEngine.newManager f names) rect ∧
    ∀ lo hi : ℚ,
      IndexEngine.searchNumericRange
        (IndexEngine.buildFromFile IndexEngine.newManager f names) lo hi = [] := by
  refine ⟨fun hne => ?_, ?_, fun lo hi => searchNumericRange_build f names lo hi⟩
  · have ht := textIndexed_build f names IndexEngine.newManager s ri ci row v
      hv hs hrow hcell
    exact searchText_mem _ v _ ht.1 ht.2 hne
  · have hp := spatialHit_build f names IndexEngine.newManager s ri ci row v
      rect hv hs hrow hcell spatialWF_newManager hworld hrect
    unfold IndexEngine.searchSpatial
    exact List.mem_map.mpr ⟨_, hp, rfl⟩

/-- C3 witness for `C3_index_retrieval`: the one-sheet workbook whose cell A1
holds `"hello"`, queried back through the text store and through the spatial
store with the unit rectangle at the 0-based origin. -/
theorem C3_index_retrieval_witness :
    IndexEngine.cellLoc "S" 0 0 ∈
      IndexEngine.searchText
        (IndexEngine.buildFromFile IndexEngine.newManager
          ⟨[("S", [["hello"]])]⟩ ["S"]) "hello" ∧
    IndexEngine.cellLoc "S" 0 0 ∈
      IndexEngine.searchSpatial
        (IndexEngine.buildFromFile IndexEngine.newManager
          ⟨[("S", [["hello"]])]⟩ ["S"]) ⟨0, 0, 1, 1⟩ := by
  have h := C3_index_retrieval ⟨[("S", [["hello"]])]⟩ ["S"] "S" 0 0 ["hello"]
    "hello" ⟨0, 0, 1, 1⟩ (by decide) (by decide) (by decide) (by decide)
    (by simp [IndexEngine.rectContains]) (by simp [IndexEngine.rectContains])
  exact ⟨h.1 (by decide), h.2.1⟩
